import Mathlib

/-!
Verification of the heading/code-block-to-file assignment engine of the
fileTofolderConverter repository, as a shallow embedding in Lean 4.

Python strings are modelled as Lean `String`/`List Char`; `str.strip()` uses
the six ASCII whitespace characters Python treats as whitespace (the inputs
of this program are ASCII-oriented path and Markdown text).  Python dicts are
modelled as insertion-ordered association lists whose operations touch only
the first matching key, matching dict semantics on duplicate-free key lists.
`difflib` similarity ratios are modelled as exact rationals (numerator,
denominator pairs); the float comparisons of the source against the
thresholds 0.8 and 0.7 agree with the rational comparisons for all realistic
string lengths.
-/

set_option maxRecDepth 8192

namespace FTF

/-- Python whitespace characters recognised by `str.strip()`. -/
def isPySpace (c : Char) : Bool :=
  c = ' ' || c = '\t' || c = '\n' || c = '\r' || c = Char.ofNat 11 || c = Char.ofNat 12

/-- Characters treated as path separators by the normalizer. -/
def isSlash (c : Char) : Bool :=
  c = '/' || c = '\\'

/-- Strip characters satisfying `p` from both ends of a character list. -/
def stripWhile (p : Char → Bool) (l : List Char) : List Char :=
  (l.dropWhile p).rdropWhile p

/-- Python `str.strip()` on a character list. -/
def pyStripChars (l : List Char) : List Char :=
  stripWhile isPySpace l

/-- Python `str.strip()` on a string. -/
def pyStrip (s : String) : String :=
  String.mk (pyStripChars s.data)

/-- Python `str.lstrip(chars)`: drop leading characters belonging to the set. -/
def pyLStripSet (set : List Char) (l : List Char) : List Char :=
  l.dropWhile (fun c => set.contains c)

/-- Python `str.rstrip(chars)`: drop trailing characters belonging to the set. -/
def pyRStripSet (set : List Char) (l : List Char) : List Char :=
  (l.reverse.dropWhile (fun c => set.contains c)).reverse

/-- Python `str.rstrip()` (whitespace) on a string. -/
def pyRStrip (s : String) : String :=
  String.mk (s.data.reverse.dropWhile isPySpace).reverse

/-- Python `str.lstrip()` (whitespace) on a string. -/
def pyLStrip (s : String) : String :=
  String.mk (s.data.dropWhile isPySpace)

/-- Lowercase a string character-wise (ASCII, as used by the source's data). -/
def pyLower (s : String) : String :=
  String.mk (s.data.map Char.toLower)

/-- The regex substitution `re.sub(r"[/\\]+$", "", s)`: remove trailing
separator runs (anchored at the end, so exactly the trailing run). -/
def dropTrailingSlashes (l : List Char) : List Char :=
  l.rdropWhile isSlash

/-- The regex substitution `re.sub(r"^\.[/\\]", "", s)`: remove one leading
`./` or `.\`. -/
def dropLeadingDotSlash (l : List Char) : List Char :=
  match l with
  | a :: b :: rest => if a = '.' && isSlash b then rest else l
  | _ => l

/-- One step of separator-run collapsing (`re.sub(r"[/\\]+", "/", s)`). -/
def collapseStep (c : Char) (acc : List Char) : List Char :=
  if isSlash c then
    if acc.head? = some '/' then acc else '/' :: acc
  else c :: acc

/-- The regex substitution `re.sub(r"[/\\]+", "/", s)`: collapse every run of
separators into a single forward slash. -/
def collapseSlashes (l : List Char) : List Char :=
  l.foldr collapseStep []

/-- Character-list core of `normalize_path_segment`
(src/utils/normalize_path_segment/normalize_path_segment.py): strip
whitespace, drop trailing separators, drop a single leading `./`, collapse
separator runs, strip again. -/
def normalizeSegChars (l : List Char) : List Char :=
  pyStripChars (collapseSlashes (dropLeadingDotSlash (dropTrailingSlashes (pyStripChars l))))

/-- `normalize_path_segment` on strings. -/
def normalize_path_segment (s : String) : String :=
  String.mk (normalizeSegChars s.data)

/-- Boolean string-prefix test used in statements (via the underlying data). -/
def strStartsWith (s pre : String) : Bool :=
  pre.data.isPrefixOf s.data

/-- Boolean string-suffix test used in statements (via the underlying data). -/
def strEndsWith (s suf : String) : Bool :=
  suf.data.isSuffixOf s.data

/-- Adjacent forward slashes never occur. -/
def noDoubleSlash (l : List Char) : Prop :=
  l.Chain' (fun a b => ¬(a = '/' ∧ b = '/'))

/-! PurePosixPath helpers (`pathlib`), modelled for `/`-separated paths. -/
/-- Split a character list at every character satisfying `p` (single-separator
`str.split` semantics: empty pieces are kept). -/
def splitCharAux (p : Char → Bool) : List Char → List Char → List (List Char)
  | [], cur => [cur.reverse]
  | c :: t, cur =>
    if p c then cur.reverse :: splitCharAux p t [] else splitCharAux p t (c :: cur)

/-- Split a string at every character satisfying `p`. -/
def splitStr (p : Char → Bool) (s : String) : List String :=
  (splitCharAux p s.data []).map String.mk

/-- The components of `PurePosixPath(s).parts` without the root: split on `/`,
dropping empty segments and `.` segments. -/
def pyPathTail (s : String) : List String :=
  (splitStr (fun c => c = '/') s).filter (fun seg => seg ≠ "" && seg ≠ ".")

/-- `PurePosixPath(s).parts` (with a leading `/` root part for absolute
paths). -/
def pyPathParts (s : String) : List String :=
  (if strStartsWith s "/" then ["/"] else []) ++ pyPathTail s

/-- `PurePosixPath(s).name`: the final path component. -/
def pyPathName (s : String) : String :=
  (pyPathTail s).getLast?.getD ""

/-- Index of the last `.` of a character list, if any. -/
def pyLastDotIdx (nd : List Char) : Option Nat :=
  let r := nd.reverse
  let afterLen := (r.takeWhile (fun c => c ≠ '.')).length
  if afterLen = r.length then none else some (r.length - 1 - afterLen)

/-- `PurePosixPath(s).suffix`: the extension of the final component, the
last-dot suffix when the dot is neither first nor last character. -/
def pyPathSuffix (s : String) : String :=
  let nd := (pyPathName s).data
  match pyLastDotIdx nd with
  | some i => if 0 < i ∧ i < nd.length - 1 then String.mk (nd.drop i) else ""
  | none => ""

/-- `PurePosixPath(s).stem`: the final component without its suffix. -/
def pyPathStem (s : String) : String :=
  let name := pyPathName s
  match pyLastDotIdx name.data with
  | some i => if 0 < i ∧ i < name.data.length - 1 then String.mk (name.data.take i) else name
  | none => name

/-- Executable substring test (Python `sub in hay`). -/
def hasSubstr : List Char → List Char → Bool
  | [], needle => needle.isEmpty
  | h :: t, needle => needle.isPrefixOf (h :: t) || hasSubstr t needle

/-- Python `sub in s` on strings. -/
def strContains (s sub : String) : Bool :=
  hasSubstr s.data sub.data

/-! The file classifier
(src/utils/is_probably_file/is_probably_file.py and
src/utils/config/config.py). -/
/-- The `SPECIAL_FILES` table of src/utils/config/config.py. -/
def specialFilesTable : List String :=
  [ "dockerfile", "makefile", "procfile",
    "package.json", "requirements.txt", "pipfile", "gemfile",
    "cargo.toml", "go.mod", "composer.json", "pom.xml",
    ".gitignore", ".eslintrc", ".editorconfig", ".prettierrc",
    ".env", ".env.example", ".env.local", ".env.production",
    "tsconfig.json", "webpack.config.js", "rollup.config.js",
    "vite.config.js", "jest.config.js", "babel.config.js",
    "readme", "readme.md", "readme.txt", "contributing", "authors",
    "changelog", "changelog.md", "license", "license.md", "code_of_conduct",
    "firestore.rules", "docker-compose.yml", "docker-compose.yaml",
    ".travis.yml", "github/workflows", "gitlab-ci.yml",
    "procfile", "manifest.yml", "app.yaml", "cloudbuild.yaml" ]

/-- `is_special_file` of src/utils/config/config.py. -/
def is_special_file (filename : String) : Bool :=
  if filename = "" then false
  else
    let nl := pyStrip (pyLower filename)
    if specialFilesTable.contains nl then true
    else if strStartsWith nl ".env" || strEndsWith nl ".config.js" then true
    else if strContains nl "/" &&
        (strContains nl "github/workflows" || strContains nl ".github/") then true
    else false

/-- The extensionless file-like names of `is_probably_file`. -/
def fileLikeNames : List String :=
  [ "dockerfile", "makefile", "procfile", "license", "readme",
    "changelog", "contributing", "authors", "code_of_conduct" ]

/-- The directory-like dotted names of `is_probably_file`. -/
def dirLikeDotNames : List String :=
  [ ".git", ".vscode", ".idea", ".venv", "node_modules" ]

/-- `is_probably_file` of src/utils/is_probably_file/is_probably_file.py. -/
def is_probably_file (name : String) (files_always dirs_always : List String) : Bool :=
  if name = "" then false
  else
    let nm := pyStrip name
    if nm = "" then false
    else
      let fa := files_always.map pyLower
      let da := dirs_always.map pyLower
      let base := pyPathName nm
      let baseLower := pyLower base
      if strEndsWith nm "/" || strEndsWith nm "\\" then false
      else if da.contains baseLower then false
      else if fa.contains baseLower then true
      else if is_special_file base then true
      else if strContains base "." && base.length > 1 then
        if strStartsWith base "." && base.data.count '.' = 1 then
          if dirLikeDotNames.contains baseLower then false else true
        else true
      else if fileLikeNames.contains baseLower then true
      else false

/-! The ASCII tree parser
(src/utils/parse_ascii_tree_block/parse_ascii_tree_block.py). -/
/-- Python `str.splitlines()` on characters: split at `\n`, `\r` and `\r\n`,
with no empty trailing piece. -/
def pySplitlinesChars : List Char → List Char → List (List Char)
  | [], cur => if cur.isEmpty then [] else [cur.reverse]
  | '\r' :: '\n' :: t, cur => cur.reverse :: pySplitlinesChars t []
  | '\r' :: t, cur => cur.reverse :: pySplitlinesChars t []
  | '\n' :: t, cur => cur.reverse :: pySplitlinesChars t []
  | c :: t, cur => pySplitlinesChars t (c :: cur)

/-- Python `str.splitlines()`. -/
def pySplitlines (s : String) : List String :=
  (pySplitlinesChars s.data []).map String.mk

/-- The prefix of `hay` that precedes the first occurrence of `needle`
(Python `hay.split(needle, 1)[0]`). -/
def takeBeforeSub : List Char → List Char → List Char
  | [], _ => []
  | c :: t, needle =>
    if needle.isPrefixOf (c :: t) then [] else c :: takeBeforeSub t needle

/-- String wrapper for `takeBeforeSub`. -/
def strBeforeSub (s sep : String) : String :=
  String.mk (takeBeforeSub s.data sep.data)

/-- Replace the box-drawing characters of a tree line with spaces.  The source
replaces `│ ├ └` one by one, then the two-character run `──` with two spaces,
then the remaining single `─` with a space; the composition maps every one of
the four glyphs to a space. -/
def replaceTreeChars (s : String) : String :=
  String.mk (s.data.map (fun c =>
    if c = '│' || c = '├' || c = '└' || c = '─' then ' ' else c))

/-- `clean_tree_line`: `none` models the `None` returns (skipped line). -/
def clean_tree_line (raw_line : String) : Option String :=
  if raw_line = "" || pyStrip raw_line = "" then none
  else
    let line := pyRStrip raw_line
    if strStartsWith (pyStrip line) "#" then none
    else
      let cleaned := replaceTreeChars line
      let content := pyStrip cleaned
      if content = "" then none
      else
        let hasTrail := strEndsWith content "/"
        let content := if hasTrail then String.mk (pyRStripSet ['/'] content.data) else content
        let content := if strContains content " #" then pyStrip (strBeforeSub content " #") else content
        let content := if strContains content " //" then pyStrip (strBeforeSub content " //") else content
        let content := if strContains content " -- " then pyStrip (strBeforeSub content " -- ") else content
        let content := pyStrip content
        if content = "" then none
        else some (if hasTrail then content ++ "/" else content)

/-- `calculate_indent_level`: count leading characters in `' │├└─'`. -/
def calculate_indent_level (line : String) : Nat :=
  (line.data.takeWhile (fun c =>
    c = ' ' || c = '│' || c = '├' || c = '└' || c = '─')).length

/-- One iteration of the parse loop of `parse_ascii_tree_block`; the stack
keeps its top at the head. -/
def parseTreeLine (fa da : List String) (st : List String × List (String × Nat))
    (raw : String) : List String × List (String × Nat) :=
  match clean_tree_line raw with
  | none => st
  | some cleaned =>
    let indent := calculate_indent_level raw
    let stack2 := st.2.dropWhile (fun e => indent ≤ e.2)
    let parent := ((stack2.head?).map Prod.fst).getD ""
    let full := if parent ≠ "" then parent ++ "/" ++ cleaned else cleaned
    let full := normalize_path_segment full
    let entries2 := st.1 ++ [full]
    if is_probably_file cleaned fa da then (entries2, stack2)
    else (entries2, (full, indent) :: stack2)

/-- `normalize_entries_relative_to_root`. -/
def normalize_entries_relative_to_root (entries : List String)
    (fa da : List String) : List String :=
  match entries with
  | [] => []
  | root :: rest =>
    if is_probably_file (pyPathName root) fa da then root :: rest
    else
      root :: rest.map (fun e =>
        if strStartsWith e (root ++ "/") then e else root ++ "/" ++ e)

/-- `parse_ascii_tree_block`. -/
def parse_ascii_tree_block (block_text : String) (fa da : List String) : List String :=
  if block_text = "" then []
  else
    let lines := pySplitlines block_text
    let entries := (lines.foldl (parseTreeLine fa da) ([], [("", 0)])).1
    if entries.isEmpty then entries
    else normalize_entries_relative_to_root entries fa da

/-! The `difflib.SequenceMatcher` similarity model (no junk handling, which
Python enables only for second sequences of 200 or more characters; ratios are
exact rationals as numerator-denominator pairs, and the comparisons of the
source against its literal thresholds are the corresponding exact rational
comparisons). -/
/-- Length of the longest common prefix of two character lists. -/
def lcpLen : List Char → List Char → Nat
  | a :: as, b :: bs => if a = b then lcpLen as bs + 1 else 0
  | _, _ => 0

/-- Length of the matching run starting at positions `i`, `j` inside the
windows `[alo, ahi)` and `[blo, bhi)`. -/
def runLenIn (a b : List Char) (ahi bhi i j : Nat) : Nat :=
  lcpLen ((a.take ahi).drop i) ((b.take bhi).drop j)

/-- `SequenceMatcher.find_longest_match` on the windows `[alo, ahi)` and
`[blo, bhi)`: the maximal matching block, earliest in `a` and then in `b`. -/
def findLongestMatch (a b : List Char) (alo ahi blo bhi : Nat) : Nat × Nat × Nat :=
  (List.range' alo (ahi - alo)).foldl
    (fun best i =>
      (List.range' blo (bhi - blo)).foldl
        (fun best j =>
          let k := runLenIn a b ahi bhi i j
          if k > best.2.2 then (i, j, k) else best)
        best)
    (alo, blo, 0)

/-- Total size of all matching blocks (`get_matching_blocks` recursion); each
recursive call strictly shrinks the combined window size, so the initial fuel
`a.length + b.length + 1` always suffices. -/
def matchSumAux : Nat → List Char → List Char → Nat → Nat → Nat → Nat → Nat
  | 0, _, _, _, _, _, _ => 0
  | fuel + 1, a, b, alo, ahi, blo, bhi =>
    let m := findLongestMatch a b alo ahi blo bhi
    if m.2.2 = 0 then 0
    else
      matchSumAux fuel a b alo m.1 blo m.2.1 + m.2.2 +
        matchSumAux fuel a b (m.1 + m.2.2) ahi (m.2.1 + m.2.2) bhi

/-- Total matched size between two character lists. -/
def matchSum (a b : List Char) : Nat :=
  matchSumAux (a.length + b.length + 1) a b 0 a.length 0 b.length

/-- `SequenceMatcher.ratio()` as an exact rational (`2 * M / (la + lb)`,
and `1.0` for two empty sequences). -/
def pyRatio (a b : List Char) : Nat × Nat :=
  if a.length + b.length = 0 then (1, 1)
  else (2 * matchSum a b, a.length + b.length)

/-- Rational comparison `r >= num / den`. -/
def ratioGe (r : Nat × Nat) (num den : Nat) : Bool :=
  r.1 * den ≥ num * r.2

/-- Rational comparison `r > s`. -/
def ratioGt (r s : Nat × Nat) : Bool :=
  r.1 * s.2 > s.1 * r.2

/-- Rational equality `r = s`. -/
def ratioEqR (r s : Nat × Nat) : Bool :=
  r.1 * s.2 = s.1 * r.2

/-- `calculate_string_similarity` of map_headings_to_files.py (0.0 for an
empty operand, otherwise the lowercased ratio). -/
def calculate_string_similarity (str1 str2 : String) : Nat × Nat :=
  if str1 = "" || str2 = "" then (0, 1)
  else pyRatio (pyLower str1).data (pyLower str2).data

/-- `are_strings_similar` with the default threshold 0.8. -/
def are_strings_similar (str1 str2 : String) : Bool :=
  ratioGe (calculate_string_similarity str1 str2) 4 5

/-- `are_hints_similar` of try_rescue_unassigned.py with threshold 0.8. -/
def are_hints_similar (hint1 hint2 : String) : Bool :=
  if hint1 = "" || hint2 = "" then false
  else ratioGe (pyRatio (pyLower hint1).data (pyLower hint2).data) 4 5

/-- `get_path_specificity`: `len(Path(path).parts)`. -/
def get_path_specificity (path : String) : Nat :=
  (pyPathParts path).length

/-- Stable insertion (descending by rational key), modelling Python's stable
`list.sort(reverse=True)` on similarity scores. -/
def insertDescBy {α : Type} (key : α → Nat × Nat) (x : α) : List α → List α
  | [] => [x]
  | y :: ys => if ratioGt (key x) (key y) then x :: y :: ys else y :: insertDescBy key x ys

/-- Stable descending sort by a rational key. -/
def sortDescBy {α : Type} (key : α → Nat × Nat) (l : List α) : List α :=
  l.foldl (fun acc x => insertDescBy key x acc) []

/-! Comment-style configuration (src/utils/config/config.py). -/
/-- The comment-prefix table of `get_comment_prefix`. -/
def commentPrefixTable : List (String × String) :=
  [ (".py", "# "), (".sh", "# "), (".bash", "# "), (".zsh", "# "),
    (".ps1", "# "), (".yml", "# "), (".yaml", "# "), (".cfg", "# "),
    (".conf", "# "), (".txt", "# "), (".rb", "# "), (".pl", "# "),
    (".tcl", "# "), (".r", "# "), (".lua", "-- "), (".sql", "-- "),
    (".sqlite", "-- "),
    (".js", "// "), (".ts", "// "), (".tsx", "// "), (".jsx", "// "),
    (".java", "// "), (".go", "// "), (".rs", "// "), (".cpp", "// "),
    (".c", "// "), (".h", "// "), (".hpp", "// "), (".cs", "// "),
    (".php", "// "), (".swift", "// "), (".kt", "// "), (".scala", "// "),
    (".m", "// "),
    (".css", "/* "), (".scss", "/* "), (".sass", "/* "), (".less", "/* "),
    (".html", "<!-- "), (".xml", "<!-- "), (".md", "<!-- "),
    (".bat", "REM "), (".vim", "\" "), (".el", "; ") ]

/-- `get_comment_prefix`: table lookup with default `"# "`. -/
def commentPrefixOf (ext : String) : String :=
  let e := pyStrip (pyLower ext)
  (((commentPrefixTable.find? (fun kv => kv.1 = e)).map Prod.snd).getD "# ")

/-- `get_comment_suffix`. -/
def commentSuffixOf (ext : String) : String :=
  let e := pyStrip (pyLower ext)
  if [".css", ".scss", ".sass", ".less"].contains e then " */"
  else if [".html", ".xml", ".md"].contains e then " -->"
  else ""

/-! Hint extraction and content processing
(src/utils/map_headings_to_files/map_headings_to_files.py). -/
/-- `normalize_path_string`: backslashes to slashes, then `lstrip('./')`
(character-set strip) and `rstrip('/')`. -/
def normalize_path_string (p : String) : String :=
  if p = "" then ""
  else
    let n := p.data.map (fun c => if c = '\\' then '/' else c)
    String.mk (pyRStripSet ['/'] (pyLStripSet ['.', '/'] n))

/-- Earliest closing delimiter in `cs`: the captured inner text (which may not
cross a newline) and the remainder after the delimiter. -/
def findCloseDelim (d : List Char) : List Char → Option (List Char × List Char)
  | [] => none
  | c :: t =>
    if d.isPrefixOf (c :: t) then some ([], (c :: t).drop d.length)
    else if c = '\n' then none
    else (findCloseDelim d t).map (fun r => (c :: r.1, r.2))

/-- `re.sub(d + lazy-capture + d, capture, text)` for a literal delimiter `d`:
scan left to right, replacing each delimited span by its inner text.  Fuel is
the list length; each step consumes at least one character. -/
def subDelim (d : List Char) : Nat → List Char → List Char
  | 0, cs => cs
  | _ + 1, [] => []
  | fuel + 1, c :: t =>
    if d.isPrefixOf (c :: t) then
      match findCloseDelim d ((c :: t).drop d.length) with
      | some (inner, after) => inner ++ subDelim d fuel after
      | none => c :: subDelim d fuel t
    else c :: subDelim d fuel t

/-- Remainder after the first `>` of a list. -/
def findTagEndGo : List Char → Option (List Char)
  | [] => none
  | x :: xs => if x = '>' then some xs else findTagEndGo xs

/-- Remainder after the first `>` that follows at least one non-`>`
character (the tail of a `<[^>]+>` match). -/
def findTagEnd : List Char → Option (List Char)
  | [] => none
  | c :: t => if c = '>' then none else findTagEndGo (c :: t)

/-- `re.sub(r"<[^>]+>", "", text)`: drop HTML tags. -/
def stripTags : Nat → List Char → List Char
  | 0, cs => cs
  | _ + 1, [] => []
  | fuel + 1, c :: t =>
    if c = '<' then
      match findTagEnd t with
      | some rest => stripTags fuel rest
      | none => c :: stripTags fuel t
    else c :: stripTags fuel t

/-- `clean_markdown_formatting`: remove bold, italic, underscore and inline
code delimiters, HTML tags, all remaining `*` and `_`, and strip. -/
def clean_markdown_formatting (text : String) : String :=
  if text = "" then ""
  else
    let t1 := subDelim ['*', '*'] text.data.length text.data
    let t2 := subDelim ['*'] t1.length t1
    let t3 := subDelim ['_'] t2.length t2
    let t4 := subDelim ['`'] t3.length t3
    let t5 := stripTags t4.length t4
    let t6 := t5.filter (fun c => c ≠ '*' && c ≠ '_')
    pyStrip (String.mk t6)

/-- Match `^\s*PFX\s*(.*)$` against a line, returning the capture. -/
def matchSimplePrefix (pfx : List Char) (line : List Char) : Option (List Char) :=
  let rest := line.dropWhile isPySpace
  if pfx.isPrefixOf rest then some ((rest.drop pfx.length).dropWhile isPySpace)
  else none

/-- Match `^\s*<!--\s*(.*?)\s*-->$` against a line, returning the capture. -/
def matchHtmlComment (line : List Char) : Option (List Char) :=
  let rest := line.dropWhile isPySpace
  if ['<', '!', '-', '-'].isPrefixOf rest then
    let mid := rest.drop 4
    if ['-', '-', '>'].isSuffixOf mid then
      some (pyStripChars (mid.take (mid.length - 3)))
    else none
  else none

/-- One pattern of `COMMENT_PATTERNS`: `(capture, prefix-tag)`. -/
def tryCommentPattern (cap : Option (List Char)) (tag : String) :
    Option (String × String) :=
  match cap with
  | none => none
  | some capture =>
    let hint := String.mk (pyStripChars capture)
    if hint = "" then none
    else some (normalize_path_string hint, tag)

/-- `extract_hint_from_line`: try the comment patterns in order on the
right-stripped line; an empty capture falls through to the next pattern. -/
def extract_hint_from_line (line : String) : Option (String × String) :=
  let l := (pyRStrip line).data
  (tryCommentPattern (matchSimplePrefix ['#'] l) "#").orElse fun _ =>
  (tryCommentPattern (matchSimplePrefix ['/', '/'] l) "//").orElse fun _ =>
  (tryCommentPattern (matchSimplePrefix ['-', '-'] l) "--").orElse fun _ =>
  (tryCommentPattern (matchHtmlComment l) "<!--").orElse fun _ =>
  (tryCommentPattern (matchSimplePrefix ['%'] l) "%").orElse fun _ =>
  (tryCommentPattern (matchSimplePrefix ['*'] l) "*").orElse fun _ =>
  (tryCommentPattern (matchSimplePrefix ['R', 'E', 'M'] l) "REM").orElse fun _ =>
  (tryCommentPattern (matchSimplePrefix ['"'] l) "\"").orElse fun _ =>
  tryCommentPattern (matchSimplePrefix [';'] l) ";"

/-- `"\n".join`. -/
def joinNL (lines : List String) : String :=
  String.intercalate "\n" lines

/-- `extract_hint_and_body`: `(hint, body, has_hint)`. -/
def extract_hint_and_body (content : String) : String × String × Bool :=
  if content = "" then ("", "", false)
  else
    match pySplitlines content with
    | [] => ("", content, false)
    | first :: restLines =>
      match extract_hint_from_line first with
      | some (hint, _) =>
        (hint, if restLines.isEmpty then "" else pyRStrip (joinNL restLines), true)
      | none => ("", content, false)

/-- `format_hint_comment` (its internal failure branch is unreachable because
the prefix lookup is total). -/
def format_hint_comment (file_path : String) (file_extension : String) : String :=
  let ext :=
    if file_extension = "" then
      let sfx := String.mk (pyLStripSet ['.'] (pyPathSuffix file_path).data)
      if sfx ≠ "" then sfx else pyLower (pyPathName file_path)
    else file_extension
  commentPrefixOf ext ++ file_path

/-- `process_code_block_content`:
`(processed_content, was_modified, original_hint)`. -/
def process_code_block_content (content target_file : String)
    (strip_hints has_existing_hint : Bool) : String × Bool × Option String :=
  let lines := pySplitlines content
  let original_hint : Option String :=
    match lines with
    | l0 :: _ =>
      if has_existing_hint then (extract_hint_from_line l0).map Prod.fst else none
    | [] => none
  if strip_hints && has_existing_hint then
    (if lines.length > 1 then pyRStrip (joinNL lines.tail) else "", true, original_hint)
  else if has_existing_hint then
    let body := if lines.length > 1 then pyRStrip (joinNL lines.tail) else ""
    let ext := String.mk (pyLStripSet ['.'] (pyPathSuffix target_file).data)
    (format_hint_comment target_file ext ++ "\n" ++ body, true, original_hint)
  else if !strip_hints then
    let ext := String.mk (pyLStripSet ['.'] (pyPathSuffix target_file).data)
    (format_hint_comment target_file ext ++ "\n" ++ content, true, none)
  else (content, false, none)

/-! The fence-info resolver
(src/utils/infer_targets_from_fence_info/infer_targets_from_fence_info.py). -/
/-- Collapse whitespace runs to single spaces (`re.sub(r"\s+", " ", s)`). -/
def collapseWS (l : List Char) : List Char :=
  l.foldr
    (fun c acc =>
      if isPySpace c then
        match acc with
        | ' ' :: _ => acc
        | _ => ' ' :: acc
      else c :: acc)
    []

/-- `normalize_string`: strip, lowercase, collapse whitespace. -/
def normalize_string (text : String) : String :=
  if text = "" then ""
  else String.mk (collapseWS (pyLower (pyStrip text)).data)

/-- `get_filename_variations` (as an ordered list; only membership is used). -/
def get_filename_variations (filename : String) : List String :=
  let nl := pyLower filename
  let base :=
    [nl,
     String.mk (nl.data.filter (fun c => c ≠ '_' && c ≠ '-')),
     String.mk (nl.data.map (fun c => if c = '_' then '-' else c)),
     String.mk (nl.data.map (fun c => if c = '-' then '_' else c))]
  let exts := [".py", ".js", ".ts", ".json", ".md", ".txt", ".yml", ".yaml", ".xml", ".html", ".css"]
  base ++ exts.filterMap (fun ext =>
    if strEndsWith nl ext then
      some (String.mk (nl.data.take (nl.data.length - ext.data.length)))
    else none)

/-- `exact_match_candidates`: case-insensitive basename or full-path equality. -/
def exact_match_candidates (info_clean : String) (tree_entries : List String) : List String :=
  tree_entries.filter (fun fp =>
    pyLower (pyPathName fp) = info_clean || pyLower fp = info_clean)

/-- Lowercased names of the ancestors of a relative path (the `path.parents`
loop); the final `.` parent has the empty name. -/
def parentNamesLower (fp : String) : List String :=
  (((pyPathTail fp).dropLast.map pyLower).reverse) ++ [""]

/-- The partial-match score of one entry. -/
def scoreEntry (info_clean fp : String) : Nat :=
  let filenameLower := pyLower (pyPathName fp)
  let filepathLower := pyLower fp
  let s1 :=
    if strContains filenameLower info_clean then
      3 + (if strStartsWith filenameLower info_clean then 2 else 0) +
        (if pyLower (pyPathStem fp) = info_clean then 2 else 0)
    else if strContains filepathLower info_clean then
      1 + (if (parentNamesLower fp).contains info_clean then 1 else 0)
    else 0
  s1 + (if (get_filename_variations (pyPathName fp)).contains info_clean then 2 else 0)

/-- `partial_match_candidates`: positive scores, stably sorted descending. -/
def partMatchCandidates (info_clean : String) (tree_entries : List String) : List String :=
  let scored := tree_entries.filterMap (fun fp =>
    let sc := scoreEntry info_clean fp
    if sc > 0 then some (fp, sc) else none)
  (sortDescBy (fun x => (x.2, 1)) scored).map Prod.fst

/-- Order-preserving deduplication. -/
def dedupKeepFirst (seen : List String) : List String → List String
  | [] => []
  | x :: t =>
    if seen.contains x then dedupKeepFirst seen t
    else x :: dedupKeepFirst (x :: seen) t

/-- `validate_candidates`: skip suffix-less entries when there are several
candidates, then deduplicate preserving order. -/
def validate_candidates (candidates : List String) : List String :=
  if candidates.isEmpty then []
  else
    dedupKeepFirst []
      (candidates.filter (fun c => !(pyPathSuffix c = "" && candidates.length > 1)))

/-- `infer_targets_from_fence_info` restricted to a whitespace-free info
string (the shape of every recursive call, whose step 3 therefore cannot
fire). -/
def inferNoSplit (info : String) (tree_entries : List String) : List String :=
  if info = "" || tree_entries.isEmpty then []
  else
    let ic := normalize_string info
    if ic = "" then []
    else
      let ex := exact_match_candidates ic tree_entries
      if !ex.isEmpty then validate_candidates ex
      else
        let pm := partMatchCandidates ic tree_entries
        if !pm.isEmpty then validate_candidates pm
        else []

/-- Step 3 of `infer_targets_from_fence_info`: first token of length over two
whose recursive resolution is non-empty. -/
def firstSplitMatch (tree_entries : List String) : List String → List String
  | [] => []
  | p :: ps =>
    if p.length > 2 then
      let m := inferNoSplit p tree_entries
      if !m.isEmpty then validate_candidates m
      else firstSplitMatch tree_entries ps
    else firstSplitMatch tree_entries ps

/-- `infer_targets_from_fence_info`. -/
def infer_targets_from_fence_info (info : String) (tree_entries : List String) : List String :=
  if info = "" || tree_entries.isEmpty then []
  else
    let ic := normalize_string info
    if ic = "" then []
    else
      let ex := exact_match_candidates ic tree_entries
      if !ex.isEmpty then validate_candidates ex
      else
        let pm := partMatchCandidates ic tree_entries
        if !pm.isEmpty then validate_candidates pm
        else if strContains ic " " then
          firstSplitMatch tree_entries (splitStr (fun c => c = ' ') ic)
        else []

/-! The assignment engine
(src/utils/map_headings_to_files/map_headings_to_files.py): `PathLookup`,
`HeadingMapper`, `FenceBlockProcessor` and the token loop. -/
/-- Ordered-dict update: replace the value at the first matching key in
place, appending a new entry otherwise. -/
def dictSet {β : Type} : List (String × β) → String → β → List (String × β)
  | [], k, v => [(k, v)]
  | (k0, v0) :: rest, k, v =>
    if k0 = k then (k, v) :: rest else (k0, v0) :: dictSet rest k v

/-- Ordered-dict lookup at the first matching key. -/
def dictGet {β : Type} (m : List (String × β)) (k : String) : Option β :=
  (m.find? (fun kv => kv.1 = k)).map Prod.snd

/-- Append one block to the list at the first matching key (`d[k].append`);
a missing key leaves the dict unchanged (callers guard for `KeyError`). -/
def cmAppend : List (String × List String) → String → String → List (String × List String)
  | [], _, _ => []
  | (k0, v0) :: rest, k, b =>
    if k0 = k then (k0, v0 ++ [b]) :: rest else (k0, v0) :: cmAppend rest k b

/-- Python `repr` of a list of strings, as used by the f-string warnings. -/
def pyReprStrList (l : List String) : String :=
  "[" ++ String.intercalate ", " (l.map (fun s => "'" ++ s ++ "'")) ++ "]"

/-- The mutable state of one `map_headings_to_files` run. -/
structure EngineState where
  code_map : List (String × List String)
  warnings : List String
  unassigned : List String
  h2f : List (String × String)
  f2h : List (String × String)
deriving DecidableEq, Repr

/-- `HeadingMapper._register_mapping`: unconditionally set both directions. -/
def registerMapping (st : EngineState) (fp text : String) : EngineState :=
  { st with h2f := dictSet st.h2f text fp, f2h := dictSet st.f2h fp text }

/-- `PathLookup.find_by_basename`. -/
def find_by_basename (files : List String) (basename : String) : List String :=
  files.filter (fun fp => pyPathName fp = basename)

/-- The partial paths registered for one file (`str(Path(*parts[-i:]))` for
each suffix length). -/
def partialsOf (fp : String) : List String :=
  let parts := pyPathTail fp
  (List.range parts.length).map (fun i =>
    String.intercalate "/" (parts.drop (parts.length - (i + 1))))

/-- `PathLookup.find_by_partial_path`. -/
def find_by_partial_path (files : List String) (p : String) : List String :=
  let n := normalize_path_string p
  files.filter (fun fp => (partialsOf fp).contains n)

/-- `PathLookup.find_by_exact_path`. -/
def find_by_exact_path (files : List String) (p : String) : Option String :=
  let n := normalize_path_string p
  if files.contains n then some n else none

/-- `PathLookup.find_by_fuzzy_match` with the default threshold 0.8 (the only
threshold used by the callers). -/
def find_by_fuzzy_match (files : List String) (query : String) (limit : Nat) : List String :=
  let ql := pyLower query
  let ms := files.filterMap (fun fp =>
    let sim := calculate_string_similarity ql (pyLower fp)
    if ratioGe sim 4 5 then some (fp, sim) else none)
  ((sortDescBy (fun x => x.2) ms).take limit).map Prod.fst

/-- `HeadingMapper.map_heading_to_file`:
`(mapped_file, original_heading)` plus the updated state. -/
def map_heading_to_file (files : List String) (st : EngineState)
    (heading_text heading_clean : String) :
    Option String × Option String × EngineState :=
  match find_by_exact_path files heading_clean with
  | some em => (some em, some heading_text, registerMapping st em heading_text)
  | none =>
    match find_by_partial_path files heading_clean with
    | [t] =>
      (some t, some heading_text,
        { registerMapping st t heading_text with
          warnings := st.warnings ++
            ["ℹ️ Matched heading '" ++ heading_text ++ "' to file '" ++ t ++ "' via partial path"] })
    | t1 :: t2 :: ts =>
      (none, none,
        { st with warnings := st.warnings ++
            ["⚠️ Ambiguous heading '" ++ heading_text ++ "' matches multiple files: " ++
              pyReprStrList (t1 :: t2 :: ts)] })
    | [] =>
      match find_by_basename files (pyPathName heading_clean) with
      | [t] =>
        (some t, some heading_text,
          { registerMapping st t heading_text with
            warnings := st.warnings ++
              ["ℹ️ Matched heading '" ++ heading_text ++ "' to file '" ++ t ++ "' via basename"] })
      | _ =>
        match find_by_fuzzy_match files heading_clean 1 with
        | t :: _ =>
          (some t, some heading_text,
            { registerMapping st t heading_text with
              warnings := st.warnings ++
                ["ℹ️ Fuzzy matched heading '" ++ heading_text ++ "' to file '" ++ t ++ "'"] })
        | [] =>
          (none, none,
            { st with warnings := st.warnings ++
                ["⚠️ Heading '" ++ heading_text ++ "' does not match any file in tree"] })

/-- `FenceBlockProcessor._assign_to_file`. -/
def assign_to_file (st : EngineState) (strip_hints : Bool)
    (target content mt : String) : Bool × EngineState :=
  if !(st.code_map.map Prod.fst).contains target then (false, st)
  else
    let ehb := extract_hint_and_body content
    let hint := ehb.1
    let has_hint := ehb.2.2
    let pcc := process_code_block_content content target strip_hints has_hint
    let processed := pcc.1
    let was_modified := pcc.2.1
    let original_hint := pcc.2.2
    let w1 : List String :=
      if was_modified then
        match original_hint with
        | some oh =>
          if strip_hints && oh ≠ "" then ["ℹ️ Stripped hint '" ++ oh ++ "' from code block"]
          else if oh ≠ "" then ["ℹ️ Replaced hint '" ++ oh ++ "' with '" ++ target ++ "'"]
          else []
        | none => []
      else []
    let blocks := (dictGet st.code_map target).getD []
    let w2 : List String :=
      if !blocks.isEmpty then
        let lhb := extract_hint_and_body (blocks.getLast?.getD "")
        if lhb.2.2 && has_hint && are_strings_similar lhb.1 hint && !strip_hints then
          ["⚠️ File " ++ target ++ " had multiple code blocks with similar hints"]
        else []
      else []
    let wlog :=
      "ℹ️ Assigned fence block (" ++ mt ++ ") -> " ++ target ++
        (match original_hint with
         | some oh => if oh ≠ "" && !strip_hints then " (was: '" ++ oh ++ "')" else ""
         | none => "")
    (true,
      { st with
        code_map := cmAppend st.code_map target processed,
        warnings := st.warnings ++ w1 ++ w2 ++ [wlog] })

/-- `FenceBlockProcessor._process_with_fence_info` (its `try` body is total
here, so the `except` path cannot fire). -/
def process_with_fence_info (files : List String) (st : EngineState)
    (strip_hints : Bool) (fence_info fence_content : String) : Bool × EngineState :=
  let candidates := infer_targets_from_fence_info fence_info (st.code_map.map Prod.fst)
  match find_by_basename files (pyPathName fence_info) with
  | [t] => assign_to_file st strip_hints t fence_content "exact_basename"
  | _ =>
    match candidates with
    | [c] => assign_to_file st strip_hints c fence_content "inferred"
    | c1 :: c2 :: cs =>
      (true,
        { st with
          warnings := st.warnings ++
            ["⚠️ Ambiguous fence info '" ++ fence_info ++ "' matches " ++
              pyReprStrList (c1 :: c2 :: cs)],
          unassigned := st.unassigned ++ [fence_content] })
    | [] => (false, st)

/-- `FenceBlockProcessor._process_with_hint`. -/
def process_with_hint (files : List String) (st : EngineState)
    (strip_hints : Bool) (hint fence_content : String) : Bool × EngineState :=
  match find_by_exact_path files hint with
  | some em => assign_to_file st strip_hints em fence_content "hint_exact"
  | none =>
    match find_by_partial_path files hint with
    | [t] => assign_to_file st strip_hints t fence_content "hint_partial"
    | t1 :: t2 :: ts =>
      (true,
        { st with
          warnings := st.warnings ++
            ["⚠️ Ambiguous hint '" ++ hint ++ "' matches " ++ pyReprStrList (t1 :: t2 :: ts)],
          unassigned := st.unassigned ++ [fence_content] })
    | [] => (false, st)

/-- `FenceBlockProcessor.process_fence_block`. -/
def process_fence_block (files : List String) (st : EngineState)
    (strip_hints : Bool) (fence_info fence_content : String)
    (current_file : Option String) : Bool × EngineState :=
  let noCurrent : Unit → Bool × EngineState := fun _ =>
    if fence_info ≠ "" then
      process_with_fence_info files st strip_hints fence_info fence_content
    else
      let hint := (extract_hint_and_body fence_content).1
      if hint ≠ "" then process_with_hint files st strip_hints hint fence_content
      else
        (false,
          { st with
            unassigned := st.unassigned ++ [fence_content],
            warnings := st.warnings ++ ["⚠️ Could not assign fence block (no info/hint)"] })
  match current_file with
  | some cf =>
    if cf ≠ "" && (st.code_map.map Prod.fst).contains cf then
      assign_to_file st strip_hints cf fence_content "current"
    else noCurrent ()
  | none => noCurrent ()

/-- A Markdown token (`type`, `content`, `info`). -/
structure Tok where
  type : String
  content : String := ""
  info : String := ""
deriving DecidableEq, Repr

/-- Longest common prefix of two character lists. -/
def lcpList : List Char → List Char → List Char
  | a :: as, b :: bs => if a = b then a :: lcpList as bs else []
  | _, _ => []

/-- `textwrap.dedent`: blank out whitespace-only lines, compute the common
leading ` `/`\t` margin of the remaining lines, and remove it line-wise. -/
def pyDedent (s : String) : String :=
  let ls := splitStr (fun c => c = '\n') s
  let ls2 := ls.map (fun l =>
    if l ≠ "" && l.data.all (fun c => c = ' ' || c = '\t') then "" else l)
  let indents := ls2.filterMap (fun l =>
    if l = "" then none
    else some (l.data.takeWhile (fun c => c = ' ' || c = '\t')))
  let margin := match indents with
    | [] => ([] : List Char)
    | i0 :: rest => rest.foldl lcpList i0
  let ls3 :=
    if margin.isEmpty then ls2
    else ls2.map (fun l =>
      if margin.isPrefixOf l.data then String.mk (l.data.drop margin.length) else l)
  joinNL ls3

/-- Replace every occurrence of a non-empty pattern, scanning left to right
(Python `str.replace`; the fuel is the list length and always suffices). -/
def replaceSubChars (pat rep : List Char) : Nat → List Char → List Char
  | 0, cs => cs
  | _ + 1, [] => []
  | fuel + 1, c :: t =>
    if pat.isPrefixOf (c :: t) then rep ++ replaceSubChars pat rep fuel ((c :: t).drop pat.length)
    else c :: replaceSubChars pat rep fuel t

/-- `str.replace` on strings for a non-empty pattern. -/
def strReplaceSub (s pat rep : String) : String :=
  if pat.data.isEmpty then s
  else String.mk (replaceSubChars pat.data rep.data s.data.length s.data)

/-- The loop state of `map_headings_to_files`. -/
structure LoopSt where
  st : EngineState
  current_file : Option String
  current_heading : Option String
  skipNext : Bool
deriving DecidableEq, Repr

/-- The inline-token text read one position ahead (`tokens[i + 1]`). -/
def headInline (rest : List Tok) : String :=
  match rest.head? with
  | some inl => if inl.type = "inline" then pyStrip inl.content else ""
  | none => ""

/-- The fence content normalization: dedent, right-strip, unescape escaped
triple backticks. -/
def fenceContentOf (tok : Tok) : String :=
  strReplaceSub (pyRStrip (pyDedent tok.content)) "\\\\```" "```"

/-- Whether the paragraph branch is active (`current_file and current_file in
code_map`). -/
def paraActive (ls : LoopSt) : Bool :=
  match ls.current_file with
  | some cf => cf ≠ "" && (ls.st.code_map.map Prod.fst).contains cf
  | none => false

/-- The paragraph-content append with its duplicate-skip check. -/
def paraStep (st : EngineState) (cf para_text : String) : EngineState :=
  if para_text ≠ "" then
    if ((dictGet st.code_map cf).getD []).isEmpty ||
        ((dictGet st.code_map cf).getD []).getLast?.getD "" ≠ para_text then
      { st with code_map := cmAppend st.code_map cf para_text }
    else st
  else st

/-- The token loop of `map_headings_to_files`.  Fuel is the number of
remaining tokens; every iteration consumes at least one token, so the initial
fuel `tokens.length` suffices. -/
def tokLoop (files : List String) (strip_hints : Bool) :
    Nat → List Tok → LoopSt → LoopSt
  | 0, _, ls => ls
  | _ + 1, [], ls => ls
  | fuel + 1, tok :: rest, ls =>
    if tok.type = "heading_open" then
      if pyLower (clean_markdown_formatting (normalize_path_string (headInline rest))) =
          "file structure" then
        tokLoop files strip_hints fuel rest
          { ls with current_file := none, current_heading := none, skipNext := true }
      else
        tokLoop files strip_hints fuel rest
          { ls with
            st := (map_heading_to_file files ls.st (headInline rest)
              (clean_markdown_formatting (normalize_path_string (headInline rest)))).2.2,
            current_file := (map_heading_to_file files ls.st (headInline rest)
              (clean_markdown_formatting (normalize_path_string (headInline rest)))).1,
            current_heading := (map_heading_to_file files ls.st (headInline rest)
              (clean_markdown_formatting (normalize_path_string (headInline rest)))).2.1 }
    else if tok.type = "fence" then
      if ls.skipNext then
        tokLoop files strip_hints fuel rest { ls with skipNext := false }
      else
        tokLoop files strip_hints fuel rest
          { ls with
            st := (process_fence_block files ls.st strip_hints (pyStrip tok.info)
              (fenceContentOf tok) ls.current_file).2 }
    else if tok.type = "paragraph_open" && paraActive ls then
      tokLoop files strip_hints fuel
        ((rest.dropWhile (fun t2 => t2.type ≠ "paragraph_close")).drop 1)
        { ls with st := paraStep ls.st (ls.current_file.getD "") (headInline rest) }
    else tokLoop files strip_hints fuel rest ls

/-- `code_map` initialization of `map_headings_to_files`. -/
def initCodeMap (tree_files fa da : List String) : List (String × List String) :=
  tree_files.foldl
    (fun m fp => if is_probably_file (pyPathName fp) fa da then dictSet m fp [] else m)
    []

/-- `map_headings_to_files`:
`(code_map, unassigned, warnings, heading_map)`. -/
def map_headings_to_files (tokens : List Tok) (tree_files fa da : List String)
    (strip_hints : Bool) :
    List (String × List String) × List String × List String × List (String × String) :=
  if tokens.isEmpty || tree_files.isEmpty then ([], [], [], [])
  else
    let cm := initCodeMap tree_files fa da
    let files := cm.map Prod.fst
    let ls0 : LoopSt := ⟨⟨cm, [], [], [], []⟩, none, none, false⟩
    let lsF := tokLoop files strip_hints tokens.length tokens ls0
    (lsF.st.code_map, lsF.st.unassigned, lsF.st.warnings, lsF.st.f2h)

/-! The rescue engine
(src/utils/try_rescue_unassigned/try_rescue_unassigned.py).  The interactive
conflict resolver is passed as an oracle `String → List String → Option String`
(its `abort` option terminates the whole process and so returns nothing);
Python `KeyError`/`IndexError` sites are explicit branches carrying the
exception message, caught exactly where the source catches them. -/
/-- The rescue hint regex
`^(\s*//\s*|\s*#\s*|\s*<!--\s*|\s*/\*\s*)(.*?)(\s*-->|\s*\*/)?$` applied to a
line: the processed group-2 capture.  The lazy capture plus optional anchored
group 3 yield the text before the maximal trailing `\s*-->` or `\s*\*/`. -/
def matchRescueHint (line : String) : Option String :=
  let tryPfx : List Char → Option (List Char) := fun p =>
    let r := line.data.dropWhile isPySpace
    if p.isPrefixOf r then some ((r.drop p.length).dropWhile isPySpace) else none
  let afterPfx :=
    (tryPfx ['/', '/']).orElse fun _ =>
    (tryPfx ['#']).orElse fun _ =>
    (tryPfx ['<', '!', '-', '-']).orElse fun _ =>
    tryPfx ['/', '*']
  afterPfx.map fun rest =>
    let g2 :=
      if ['-', '-', '>'].isSuffixOf rest then
        (rest.take (rest.length - 3)).reverse.dropWhile isPySpace |>.reverse
      else if ['*', '/'].isSuffixOf rest then
        (rest.take (rest.length - 2)).reverse.dropWhile isPySpace |>.reverse
      else rest
    String.mk g2

/-- The per-line body of `extract_hint_from_code`: a matched but empty hint
falls through to the next line. -/
def ehcGo : Nat → List String → Option (String × Nat)
  | _, [] => none
  | idx, l :: ls =>
    match matchRescueHint (pyStrip l) with
    | some g2 =>
      let hint := String.mk
        (((pyStripChars g2.data).dropWhile (fun c => c = '.' || c = '/')).map
          (fun c => if c = '\\' then '/' else c))
      if hint ≠ "" then some (hint, idx) else ehcGo (idx + 1) ls
    | none => ehcGo (idx + 1) ls

/-- `extract_hint_from_code` with the default `max_lines = 2`;
`none` models `(None, -1)`. -/
def extract_hint_from_code (code : String) : Option (String × Nat) :=
  if code = "" || pyStrip code = "" then none
  else ehcGo 0 ((pySplitlines code).take 2)

/-- An association list modelling the code map. -/
abbrev CM := List (String × List String)

/-- `difflib.get_close_matches(word, keys, n=3, cutoff=0.7)`: entries with
ratio at least 0.7, the three largest by `(ratio, entry)` tuple order. -/
def getCloseMatches (word : String) (keys : List String) : List String :=
  let scored := keys.filterMap (fun x =>
    let r := pyRatio x.data word.data
    if ratioGe r 7 10 then some (x, r) else none)
  let rec ins (x : String × (Nat × Nat)) : List (String × (Nat × Nat)) → List (String × (Nat × Nat))
    | [] => [x]
    | y :: ys =>
      if ratioGt x.2 y.2 || (ratioEqR x.2 y.2 && decide (y.1 < x.1)) then x :: y :: ys
      else y :: ins x ys
  ((scored.foldl (fun acc x => ins x acc) []).take 3).map Prod.fst

/-- `find_matching_files`. -/
def find_matching_files (hint : String) (cm : CM) (fallback : String) : List String :=
  let keys := cm.map Prod.fst
  if keys.contains hint then [hint]
  else
    let c2 := keys.filter (fun f => strEndsWith f hint)
    if !c2.isEmpty then c2
    else if fallback = "medium" || fallback = "high" then
      let c3 := keys.filter (fun f => strContains f hint)
      if !c3.isEmpty then c3
      else getCloseMatches hint keys
    else []

/-- Drop the line at one index (`lines[:n] + lines[n+1:]`). -/
def dropIdx (lines : List String) (n : Nat) : List String :=
  lines.take n ++ lines.drop (n + 1)

/-- The shared duplicate-check-and-append tail of the rescue assignment
helpers, for a caller whose surrounding `try` turns the `KeyError` and
`IndexError` sites into a `False` return. -/
def rescueCommit (cm : CM) (target body : String) (w : List String)
    (okMsg : String) : Bool × CM × List String :=
  if body = "" then (false, cm, w)
  else
    match dictGet cm target with
    | none => (false, cm, w)
    | some blocks =>
      if !blocks.isEmpty then
        match pySplitlines (blocks.getLast?.getD "") with
        | [] => (false, cm, w)
        | l0 :: _ =>
          ((true, cmAppend cm target body,
            (if are_hints_similar l0 target then
              w ++ ["⚠️ File " ++ target ++ " had multiple code blocks merged"]
            else w) ++ [okMsg]))
      else (true, cmAppend cm target body, w ++ [okMsg])

/-- Outcome of a rescue helper without its own `try`. -/
inductive RStat where
  | assigned
  | failed
  | raised (msg : String)
deriving DecidableEq, Repr

/-- The same tail for a caller without a local `try`: the `KeyError` and
`IndexError` sites raise, carrying the exception message. -/
def rescueCommitRaise (cm : CM) (target body : String) (w : List String)
    (okMsg : String) : RStat × CM × List String :=
  if body = "" then (.failed, cm, w)
  else
    match dictGet cm target with
    | none => (.raised ("'" ++ target ++ "'"), cm, w)
    | some blocks =>
      if !blocks.isEmpty then
        match pySplitlines (blocks.getLast?.getD "") with
        | [] => (.raised "list index out of range", cm, w)
        | l0 :: _ =>
          ((.assigned, cmAppend cm target body,
            (if are_hints_similar l0 target then
              w ++ ["⚠️ File " ++ target ++ " had multiple code blocks merged"]
            else w) ++ [okMsg]))
      else (.assigned, cmAppend cm target body, w ++ [okMsg])

/-- `process_hint_match`: `(assigned, code_map, warnings)`.  Its internal
`try` catches the `KeyError`/`IndexError` branches, which therefore return
`False` with the warnings accumulated so far. -/
def process_hint_match (code hint : String) (lineNum : Option Nat)
    (target : String) (cm : CM) (strip_hints : Bool) (warns : List String) :
    Bool × CM × List String :=
  let lines := pySplitlines code
  let existing := if lineNum.isSome then hint else ""
  let lnum := lineNum.getD 0
  let bw : String × List String :=
    if existing ≠ "" && are_hints_similar existing target then
      if get_path_specificity existing ≥ get_path_specificity target then (code, warns)
      else
        let body :=
          if strip_hints then pyRStrip (joinNL (dropIdx lines lnum))
          else
            let ext := pyLower (pyPathSuffix target)
            commentPrefixOf ext ++ target ++ commentSuffixOf ext ++ "\n" ++ pyLStrip code
        (body, warns ++
          ["ℹ️ Replaced hint '" ++ existing ++ "' with '" ++ target ++ "' (more specific)"])
    else if strip_hints && lineNum.isSome then
      (pyRStrip (joinNL (dropIdx lines lnum)), warns)
    else (code, warns)
  rescueCommit cm target bw.1 bw.2
    ("ℹ️ Rescued block → assigned to " ++ target ++ " (from hint '" ++ hint ++ "')")

/-- `try_basename_match`; an `IndexError` of its duplicate check propagates to
the per-block handler. -/
def try_basename_match (code hint : String) (lineNum : Option Nat) (cm : CM)
    (strip_hints : Bool) (warns : List String) : RStat × CM × List String :=
  let bm := (cm.map Prod.fst).filter (fun f => pyPathName f = pyPathName hint)
  match bm with
  | [t] =>
    let body :=
      if strip_hints && lineNum.isSome then
        pyRStrip (joinNL (dropIdx (pySplitlines code) (lineNum.getD 0)))
      else code
    if body = "" then (.failed, cm, warns)
    else
      rescueCommitRaise cm t body warns
        ("ℹ️ Auto-assigned block to " ++ t ++ " (basename match for hint '" ++ hint ++ "')")
  | _ => (.failed, cm, warns)

/-- The item loop of `try_heading_match`. -/
def thmGo (cm : CM) (first_line body : String) (warns : List String) :
    List (String × String) → RStat × CM × List String
  | [] => (.failed, cm, warns)
  | (target, heading) :: items =>
    if !(cm.map Prod.fst).contains target then thmGo cm first_line body warns items
    else
      let heading_clean := String.mk
        (((pyStrip heading).data.dropWhile (fun c => c = '.' || c = '/')).map
          (fun c => if c = '\\' then '/' else c))
      if strStartsWith first_line heading || strContains first_line heading_clean then
        if body ≠ "" then
          rescueCommitRaise cm target body warns
            ("ℹ️ Rescued block → assigned to " ++ target ++ " (from heading '" ++ heading ++ "')")
        else thmGo cm first_line body warns items
      else thmGo cm first_line body warns items

/-- `try_heading_match`. -/
def try_heading_match (code : String) (hm : List (String × String)) (cm : CM)
    (strip_hints : Bool) (warns : List String) : RStat × CM × List String :=
  match pySplitlines code with
  | [] => (.failed, cm, warns)
  | l0 :: rest =>
    let body := if strip_hints then pyRStrip (joinNL rest) else code
    thmGo cm (pyStrip l0) body warns hm

/-- The working state of the rescue loop. -/
structure RescueSt where
  cm : CM
  still : List String
  warns : List String
deriving DecidableEq, Repr

/-- Keep a block unassigned. -/
def rescueKeep (st : RescueSt) (code : String) : RescueSt :=
  { st with still := st.still ++ [code] }

/-- The per-block exception handler (`except Exception`). -/
def rescueHandler (st : RescueSt) (code msg : String) : RescueSt :=
  { st with
    warns := st.warns ++ ["⚠️ Error processing code block: " ++ msg],
    still := st.still ++ [code] }

/-- Step 5: high-level fallback to the first still-empty file. -/
def rescueStepFive (fallback : String) (code : String) (st : RescueSt) : RescueSt :=
  if fallback = "high" then
    match (st.cm.map Prod.fst).filter (fun f => ((dictGet st.cm f).getD []).isEmpty) with
    | t :: _ =>
      { st with
        cm := cmAppend st.cm t code,
        warns := st.warns ++ ["ℹ️ Auto-assigned block to " ++ t ++ " (fallback assignment)"] }
    | [] => rescueKeep st code
  else rescueKeep st code

/-- Step 4: heading-map matching for medium and high fallback. -/
def rescueStepFour (hm : List (String × String)) (strip_hints : Bool)
    (fallback : String) (code : String) (st : RescueSt) : RescueSt :=
  if fallback = "medium" || fallback = "high" then
    match try_heading_match code hm st.cm strip_hints st.warns with
    | (.assigned, cm2, w2) => { st with cm := cm2, warns := w2 }
    | (.failed, cm2, w2) => rescueStepFive fallback code { st with cm := cm2, warns := w2 }
    | (.raised msg, cm2, w2) => rescueHandler { st with cm := cm2, warns := w2 } code msg
  else rescueStepFive fallback code st

/-- Strip, drop leading `.`/`/` characters and turn backslashes into slashes
(the `strip().lstrip("./").replace("\\\\", "/")` idiom of the rescue pass). -/
def assumedHeadingOf (l0 : String) : String :=
  String.mk (((pyStrip l0).data.dropWhile (fun c => c = '.' || c = '/')).map
    (fun c => if c = '\\' then '/' else c))

/-- Step 3: the first line as an assumed heading for medium and high
fallback. -/
def rescueStepThree (hm : List (String × String)) (strip_hints interactive : Bool)
    (fallback : String) (resolver : String → List String → Option String)
    (code : String) (st : RescueSt) : RescueSt :=
  if fallback = "medium" || fallback = "high" then
    match pySplitlines code with
    | [] => rescueStepFour hm strip_hints fallback code st
    | l0 :: rest =>
      match find_matching_files (assumedHeadingOf l0) st.cm fallback with
      | [c] =>
        if (if strip_hints then pyRStrip (joinNL rest) else code) ≠ "" then
          match rescueCommitRaise st.cm c
            (if strip_hints then pyRStrip (joinNL rest) else code) st.warns
            ("ℹ️ Rescued block → assigned to " ++ c ++ " (from assumed heading '" ++
              assumedHeadingOf l0 ++ "')") with
          | (.assigned, cm2, w2) => { st with cm := cm2, warns := w2 }
          | (.raised msg, cm2, w2) => rescueHandler { st with cm := cm2, warns := w2 } code msg
          | (.failed, _, _) => rescueStepFour hm strip_hints fallback code st
        else rescueStepFour hm strip_hints fallback code st
      | c1 :: c2 :: cs =>
        if interactive then
          match resolver (assumedHeadingOf l0) (c1 :: c2 :: cs) with
          | some sel =>
            if sel ≠ "" then
              if (if strip_hints then pyRStrip (joinNL rest) else code) ≠ "" then
                match dictGet st.cm sel with
                | none => rescueHandler st code ("'" ++ sel ++ "'")
                | some _ =>
                  { st with
                    cm := cmAppend st.cm sel
                      (if strip_hints then pyRStrip (joinNL rest) else code),
                    warns := st.warns ++
                      ["ℹ️ Rescued block → assigned to " ++ sel ++ " (interactive selection)"] }
              else rescueStepFour hm strip_hints fallback code st
            else rescueStepFour hm strip_hints fallback code st
          | none => rescueStepFour hm strip_hints fallback code st
        else rescueStepFour hm strip_hints fallback code st
      | [] => rescueStepFour hm strip_hints fallback code st
  else rescueStepFour hm strip_hints fallback code st

/-- One iteration of the rescue loop over an unassigned block. -/
def rescueStep (hm : List (String × String)) (strip_hints interactive : Bool)
    (fallback : String) (resolver : String → List String → Option String)
    (st : RescueSt) (code : String) : RescueSt :=
  if code = "" || pyStrip code = "" then
    { st with warns := st.warns ++ ["⚠️ Skipped empty code block"] }
  else
    match extract_hint_from_code code with
    | some (hint, lnum) =>
      match find_matching_files hint st.cm fallback with
      | [c] =>
        match process_hint_match code hint (some lnum) c st.cm strip_hints st.warns with
        | (true, cm2, w2) => { st with cm := cm2, warns := w2 }
        | (false, cm2, w2) =>
          rescueStepThree hm strip_hints interactive fallback resolver code
            { st with cm := cm2, warns := w2 }
      | c1 :: c2 :: cs =>
        if interactive then
          match resolver hint (c1 :: c2 :: cs) with
          | some sel =>
            if sel ≠ "" then
              match process_hint_match code hint (some lnum) sel st.cm strip_hints st.warns with
              | (true, cm2, w2) => { st with cm := cm2, warns := w2 }
              | (false, cm2, w2) =>
                rescueStepThree hm strip_hints interactive fallback resolver code
                  { st with cm := cm2, warns := w2 }
            else rescueStepThree hm strip_hints interactive fallback resolver code st
          | none => rescueStepThree hm strip_hints interactive fallback resolver code st
        else
          { st with
            warns := st.warns ++
              ["⚠️ Ambiguous hint '" ++ hint ++ "' matches " ++
                pyReprStrList (c1 :: c2 :: cs) ++ "; kept unassigned"],
            still := st.still ++ [code] }
      | [] =>
        if fallback = "high" then
          match try_basename_match code hint (some lnum) st.cm strip_hints
            (st.warns ++ ["⚠️ Hint '" ++ hint ++ "' did not match any file"]) with
          | (.assigned, cm2, w3) => { st with cm := cm2, warns := w3 }
          | (.failed, cm2, w3) => rescueKeep { st with cm := cm2, warns := w3 } code
          | (.raised msg, cm2, w3) => rescueHandler { st with cm := cm2, warns := w3 } code msg
        else
          rescueKeep
            { st with warns := st.warns ++ ["⚠️ Hint '" ++ hint ++ "' did not match any file"] }
            code
    | none => rescueStepThree hm strip_hints interactive fallback resolver code st

/-- `try_rescue_unassigned`:
`(still_unassigned, rescued_warnings, code_map)` (the third component is the
dict the source mutates in place). -/
def try_rescue_unassigned (unassigned _tree_entries : List String) (cm : CM)
    (hm : List (String × String)) (strip_hints interactive : Bool)
    (fallback : String) (resolver : String → List String → Option String) :
    List String × List String × CM :=
  if unassigned.isEmpty then ([], ["ℹ️ No unassigned blocks to rescue"], cm)
  else if cm.isEmpty then
    (unassigned, ["⚠️ No code map available for rescue attempts"], cm)
  else
    let fin := unassigned.foldl
      (rescueStep hm strip_hints interactive fallback resolver) ⟨cm, [], []⟩
    (fin.still, fin.warns, fin.cm)

/-! Invariant machinery for the rescue loop (C8, C10). -/
/-- Total number of stored blocks across the code map. -/
def cmTotal (cm : CM) : Nat :=
  (cm.map (fun kv => kv.2.length)).sum

/-- What one rescue iteration may do to the state: keep the block or place it
once; only append to existing lists; never add or remove a key. -/
def StepOk (st st2 : RescueSt) (code : String) : Prop :=
  (st2.still = st.still ∨ st2.still = st.still ++ [code]) ∧
  st2.cm.map Prod.fst = st.cm.map Prod.fst ∧
  (∀ k, ((dictGet st.cm k).getD []) <+: ((dictGet st2.cm k).getD [])) ∧
  cmTotal st2.cm + st2.still.length ≤ cmTotal st.cm + st.still.length + 1

/-- Invariant of the whole rescue fold. -/
def FoldOk (st st2 : RescueSt) (codes : List String) : Prop :=
  st2.still.length ≤ st.still.length + codes.length ∧
  (∀ s ∈ st2.still, s ∈ st.still ∨ s ∈ codes) ∧
  st2.cm.map Prod.fst = st.cm.map Prod.fst ∧
  (∀ k, ((dictGet st.cm k).getD []) <+: ((dictGet st2.cm k).getD [])) ∧
  cmTotal st2.cm + st2.still.length ≤ cmTotal st.cm + st.still.length + codes.length

/-! Supporting lemmas for idempotence analysis of `normalize_path_segment`. -/
lemma head?_dropWhile_not (p : Char → Bool) (l : List Char) (c : Char)
    (h : (l.dropWhile p).head? = some c) : p c = false := by
  induction l with
  | nil => simp at h
  | cons a t ih =>
    rw [List.dropWhile_cons] at h
    by_cases hp : p a
    · rw [if_pos hp] at h
      exact ih h
    · rw [if_neg hp] at h
      simp only [List.head?_cons, Option.some.injEq] at h
      subst h
      simpa using hp

lemma stripWhile_infix (p : Char → Bool) (l : List Char) : stripWhile p l <:+: l :=
  (List.rdropWhile_prefix p (l.dropWhile p)).isInfix.trans (List.dropWhile_suffix p).isInfix

lemma stripWhile_head? (p : Char → Bool) (l : List Char) (c : Char)
    (h : (stripWhile p l).head? = some c) : p c = false := by
  obtain ⟨t, ht⟩ := List.rdropWhile_prefix p (l.dropWhile p)
  cases hs : stripWhile p l with
  | nil => rw [hs] at h; cases h
  | cons a rest =>
    rw [hs] at h
    simp only [List.head?_cons, Option.some.injEq] at h
    have hd : l.dropWhile p = a :: (rest ++ t) := by
      rw [← ht]
      show stripWhile p l ++ t = _
      rw [hs]
      rfl
    rw [← h]
    exact head?_dropWhile_not p l a (by rw [hd]; rfl)

lemma stripWhile_getLast? (p : Char → Bool) (l : List Char) (c : Char)
    (h : (stripWhile p l).getLast? = some c) : p c = false := by
  have hne : stripWhile p l ≠ [] := by
    intro hnil
    rw [hnil] at h
    cases h
  have hne2 : (l.dropWhile p).rdropWhile p ≠ [] := hne
  have h2 := List.rdropWhile_last_not p (l.dropWhile p) hne2
  have h3 : p ((stripWhile p l).getLast hne) ≠ true := h2
  have hg : (stripWhile p l).getLast hne = c := by
    have h4 := List.getLast?_eq_getLast (stripWhile p l) hne
    rw [h] at h4
    exact (Option.some.inj h4).symm
  rw [hg] at h3
  cases hx : p c
  · rfl
  · exact absurd hx h3

lemma stripWhile_eq_self (p : Char → Bool) (l : List Char)
    (h1 : ∀ c, l.head? = some c → p c = false)
    (h2 : ∀ c, l.getLast? = some c → p c = false) : stripWhile p l = l := by
  have hd : l.dropWhile p = l := by
    cases l with
    | nil => rfl
    | cons a t =>
      rw [List.dropWhile_cons, h1 a rfl]
      simp
  show (l.dropWhile p).rdropWhile p = l
  rw [hd, List.rdropWhile_eq_self_iff]
  intro hl
  have := h2 (l.getLast hl) (by rw [List.getLast?_eq_getLast l hl])
  simp [this]

lemma isSlash_cases {c : Char} (h : isSlash c = true) : c = '/' ∨ c = '\\' := by
  simpa [isSlash] using h

lemma collapseSlashes_cons (a : Char) (t : List Char) :
    collapseSlashes (a :: t) = collapseStep a (collapseSlashes t) := rfl

lemma collapse_no_bs (l : List Char) : ∀ c ∈ collapseSlashes l, c ≠ '\\' := by
  induction l with
  | nil => simp [collapseSlashes]
  | cons a t ih =>
    intro c hc
    rw [collapseSlashes_cons] at hc
    unfold collapseStep at hc
    by_cases ha : isSlash a
    · rw [if_pos ha] at hc
      by_cases hh : (collapseSlashes t).head? = some '/'
      · rw [if_pos hh] at hc
        exact ih c hc
      · rw [if_neg hh] at hc
        rcases List.mem_cons.mp hc with h | h
        · subst h; decide
        · exact ih c h
    · rw [if_neg ha] at hc
      rcases List.mem_cons.mp hc with h | h
      · subst h
        intro hbs
        exact ha (by rw [hbs]; rfl)
      · exact ih c h

lemma collapse_chain (l : List Char) : noDoubleSlash (collapseSlashes l) := by
  induction l with
  | nil => simp [collapseSlashes, noDoubleSlash]
  | cons a t ih =>
    rw [noDoubleSlash, collapseSlashes_cons]
    unfold collapseStep
    by_cases ha : isSlash a
    · rw [if_pos ha]
      by_cases hh : (collapseSlashes t).head? = some '/'
      · rw [if_pos hh]
        exact ih
      · rw [if_neg hh]
        refine List.Chain'.cons' ih ?_
        intro y hy
        intro ⟨_, hy2⟩
        exact hh (by rw [← hy2]; exact hy)
    · rw [if_neg ha]
      refine List.Chain'.cons' ih ?_
      intro y hy
      intro ⟨ha2, _⟩
      exact ha (by rw [ha2]; rfl)

lemma collapse_eq_self (l : List Char) (hnb : ∀ c ∈ l, c ≠ '\\')
    (hch : noDoubleSlash l) : collapseSlashes l = l := by
  induction l with
  | nil => rfl
  | cons a t ih =>
    have ht : collapseSlashes t = t :=
      ih (fun c hc => hnb c (List.mem_cons_of_mem a hc)) (List.Chain'.tail hch)
    rw [collapseSlashes_cons, ht]
    unfold collapseStep
    by_cases ha : isSlash a
    · have ha' : a = '/' := by
        rcases isSlash_cases ha with h | h
        · exact h
        · exact absurd h (hnb a (List.mem_cons_self a t))
      subst ha'
      rw [if_pos ha]
      have hh : t.head? ≠ some '/' := by
        intro hhead
        exact (List.Chain'.rel_head? hch hhead) ⟨rfl, rfl⟩
      rw [if_neg hh]
    · rw [if_neg ha]

lemma dropLeadingDotSlash_eq_self (l : List Char)
    (h : ∀ b rest, l = '.' :: b :: rest → isSlash b = false) :
    dropLeadingDotSlash l = l := by
  match l with
  | [] => rfl
  | [a] => rfl
  | a :: b :: rest =>
    show (if a = '.' && isSlash b then rest else a :: b :: rest) = a :: b :: rest
    by_cases ha : a = '.'
    · subst ha
      rw [h b rest rfl]
      simp
    · simp [ha]

lemma dropTrailingSlashes_eq_self (l : List Char)
    (h : ∀ c, l.getLast? = some c → isSlash c = false) :
    dropTrailingSlashes l = l := by
  rw [dropTrailingSlashes, List.rdropWhile_eq_self_iff]
  intro hl
  have := h (l.getLast hl) (by rw [List.getLast?_eq_getLast l hl])
  simp [this]

/-- C3 counterexample: `normalize_path_segment` is not idempotent.  A second
application strips a further leading `./` (the regex removes only one), and a
trailing `/` can survive one application when the input ends in
slash-whitespace-slash. -/
theorem normalize_path_segment_not_idempotent :
    normalize_path_segment (normalize_path_segment "././a") ≠
      normalize_path_segment "././a" ∧
    normalize_path_segment (normalize_path_segment "a/ /") ≠
      normalize_path_segment "a/ /" := by
  constructor <;> decide

/-- C3 (amended): `normalize_path_segment` is idempotent on every input whose
normalized form neither starts with `./` nor ends with `/`. -/
theorem normalize_path_segment_idem (x : String)
    (h1 : strStartsWith (normalize_path_segment x) "./" = false)
    (h2 : strEndsWith (normalize_path_segment x) "/" = false) :
    normalize_path_segment (normalize_path_segment x) = normalize_path_segment x := by
  set w : List Char := normalizeSegChars x.data with hw
  have hdata : (normalize_path_segment x).data = w := rfl
  -- structural facts about the normalized form
  have hmidnb := collapse_no_bs (dropLeadingDotSlash (dropTrailingSlashes (pyStripChars x.data)))
  have hmidch := collapse_chain (dropLeadingDotSlash (dropTrailingSlashes (pyStripChars x.data)))
  have hinf : w <:+: collapseSlashes (dropLeadingDotSlash (dropTrailingSlashes (pyStripChars x.data))) :=
    stripWhile_infix _ _
  have hnb : ∀ c ∈ w, c ≠ '\\' := fun c hc => hmidnb c (hinf.subset hc)
  have hch : noDoubleSlash w := List.Chain'.infix hmidch hinf
  have hhead : ∀ c, w.head? = some c → isPySpace c = false := fun c hc =>
    stripWhile_head? isPySpace _ c hc
  have hlast : ∀ c, w.getLast? = some c → isPySpace c = false := fun c hc =>
    stripWhile_getLast? isPySpace _ c hc
  -- the last character is not a separator
  have hlastslash : ∀ c, w.getLast? = some c → isSlash c = false := by
    intro c hc
    by_contra hsl
    have hsl' : isSlash c = true := by
      cases hx : isSlash c
      · exact absurd hx hsl
      · rfl
    have hc' : c = '/' := by
      rcases isSlash_cases hsl' with h | h
      · exact h
      · exact absurd h (hnb c (List.mem_of_mem_getLast? hc))
    subst hc'
    obtain ⟨t, ht⟩ := List.getLast?_eq_some_iff.mp hc
    have : strEndsWith (normalize_path_segment x) "/" = true := by
      show (("/" : String).data).isSuffixOf (normalize_path_segment x).data = true
      rw [hdata, ht]
      show List.isPrefixOf ['/'] (t ++ ['/']).reverse = true
      rw [List.reverse_append]
      simp [List.isPrefixOf]
    rw [this] at h2
    cases h2
  -- the list does not start with dot-separator
  have hheaddot : ∀ b rest, w = '.' :: b :: rest → isSlash b = false := by
    intro b rest hshape
    by_contra hsl
    have hsl' : isSlash b = true := by
      cases hx : isSlash b
      · exact absurd hx hsl
      · rfl
    have hb : b = '/' := by
      rcases isSlash_cases hsl' with h | h
      · exact h
      · refine absurd h (hnb b ?_)
        rw [hshape]
        exact List.mem_cons_of_mem _ (List.mem_cons_self _ _)
    subst hb
    have : strStartsWith (normalize_path_segment x) "./" = true := by
      show (("./" : String).data).isPrefixOf (normalize_path_segment x).data = true
      rw [hdata, hshape]
      simp [List.isPrefixOf]
    rw [this] at h1
    cases h1
  -- now each stage of the second normalization is the identity
  have s1 : pyStripChars w = w := stripWhile_eq_self isPySpace w hhead hlast
  have s2 : dropTrailingSlashes w = w := dropTrailingSlashes_eq_self w hlastslash
  have s3 : dropLeadingDotSlash w = w := dropLeadingDotSlash_eq_self w hheaddot
  have s4 : collapseSlashes w = w := collapse_eq_self w hnb hch
  show String.mk (normalizeSegChars (normalize_path_segment x).data) = String.mk w
  rw [hdata]
  show String.mk (pyStripChars (collapseSlashes (dropLeadingDotSlash (dropTrailingSlashes (pyStripChars w))))) = String.mk w
  rw [s1, s2, s3, s4, s1]

/-- Witness for the amended C3 theorem at the concrete input `" src// "`. -/
theorem normalize_path_segment_idem_witness :
    strStartsWith (normalize_path_segment " src// ") "./" = false ∧
    strEndsWith (normalize_path_segment " src// ") "/" = false ∧
    normalize_path_segment (normalize_path_segment " src// ") =
      normalize_path_segment " src// " :=
  ⟨by decide, by decide, normalize_path_segment_idem " src// " (by decide) (by decide)⟩

/-- C5: the classifier's answers on the spec's reference inputs. -/
theorem is_probably_file_reference_inputs :
    is_probably_file "src" [] [] = false ∧
    is_probably_file "main.py" [] [] = true ∧
    is_probably_file "Dockerfile" [] [] = true ∧
    is_probably_file "README" [] [] = true ∧
    is_probably_file "mydir" [] ["mydir"] = false ∧
    is_probably_file "data" ["data"] [] = true :=
  ⟨rfl, rfl, rfl, rfl, rfl, rfl⟩

/-- C7: when the first parsed entry is classified as a directory, every later
entry of the result is prefixed by it. -/
theorem parse_tree_root_prefix (t : String) (fa da : List String)
    (root : String) (rest : List String)
    (hres : parse_ascii_tree_block t fa da = root :: rest)
    (hdir : is_probably_file (pyPathName root) fa da = false) :
    ∀ e ∈ rest, strStartsWith e (root ++ "/") = true := by
  intro e he
  unfold parse_ascii_tree_block at hres
  by_cases ht : t = ""
  · rw [if_pos ht] at hres
    cases hres
  · rw [if_neg ht] at hres
    replace hres :
        (if ((List.foldl (parseTreeLine fa da) ([], [("", 0)]) (pySplitlines t)).1).isEmpty
          then (List.foldl (parseTreeLine fa da) ([], [("", 0)]) (pySplitlines t)).1
          else normalize_entries_relative_to_root
            ((List.foldl (parseTreeLine fa da) ([], [("", 0)]) (pySplitlines t)).1) fa da) =
          root :: rest := hres
    generalize hgen : (List.foldl (parseTreeLine fa da) ([], [("", 0)]) (pySplitlines t)).1 = entries at hres
    by_cases hemp : entries.isEmpty
    · rw [if_pos hemp] at hres
      rw [List.isEmpty_iff] at hemp
      rw [hemp] at hres
      cases hres
    · rw [if_neg hemp] at hres
      cases hE : entries with
      | nil => rw [hE] at hemp; exact absurd rfl hemp
      | cons e0 es =>
        rw [hE] at hres
        replace hres :
            (if is_probably_file (pyPathName e0) fa da = true
              then e0 :: es
              else e0 :: es.map (fun x =>
                if strStartsWith x (e0 ++ "/") = true then x else e0 ++ "/" ++ x)) =
              root :: rest := hres
        by_cases hcls : is_probably_file (pyPathName e0) fa da = true
        · rw [if_pos hcls] at hres
          have h0 : e0 = root := (List.cons.injEq _ _ _ _ ▸ hres).1
          rw [h0] at hcls
          rw [hcls] at hdir
          cases hdir
        · rw [if_neg hcls] at hres
          have h0 : e0 = root := (List.cons.injEq _ _ _ _ ▸ hres).1
          have h1 : es.map (fun x =>
              if strStartsWith x (e0 ++ "/") then x else e0 ++ "/" ++ x) = rest :=
            (List.cons.injEq _ _ _ _ ▸ hres).2
          rw [← h1] at he
          obtain ⟨x, _, hx⟩ := List.mem_map.mp he
          rw [← h0]
          by_cases hpre : strStartsWith x (e0 ++ "/") = true
          · rw [if_pos hpre] at hx
            rw [← hx]
            exact hpre
          · rw [if_neg hpre] at hx
            rw [← hx]
            show (e0 ++ "/").data.isPrefixOf (e0 ++ "/" ++ x).data = true
            apply List.isPrefixOf_iff_prefix.mpr
            exact ⟨x.data, by simp [String.data_append]⟩

/-- Witness for C7 at the concrete tree text `"src\n  a.py"`. -/
theorem parse_tree_root_prefix_witness :
    parse_ascii_tree_block "src\n  a.py" [] [] = ["src", "src/a.py"] ∧
    is_probably_file (pyPathName "src") [] [] = false ∧
    ∀ e ∈ ["src/a.py"], strStartsWith e ("src" ++ "/") = true :=
  ⟨rfl, rfl, parse_tree_root_prefix "src\n  a.py" [] [] "src" ["src/a.py"] rfl rfl⟩

/-- Setting a key and reading it back yields the new value. -/
lemma dictGet_dictSet {β : Type} (m : List (String × β)) (k : String) (v : β) :
    dictGet (dictSet m k v) k = some v := by
  induction m with
  | nil => simp [dictSet, dictGet, List.find?]
  | cons kv rest ih =>
    obtain ⟨k0, v0⟩ := kv
    by_cases h : k0 = k
    · simp [dictSet, dictGet, h, List.find?]
    · simp only [dictSet, if_neg h]
      simp only [dictGet, List.find?] at ih ⊢
      rw [show (decide (k0 = k)) = false by simp [h]]
      exact ih

/-- C1 (code-bug evaluation): a fence whose non-empty info string yields zero
candidates and no unique basename is dropped: it reaches neither any
`code_map` list nor `unassigned`, because `process_fence_block` returns the
`False` of `_process_with_fence_info` instead of falling through to the
hint/basename/unassigned stages. -/
theorem fence_zero_candidates_drops_block :
    map_headings_to_files [⟨"fence", "X", "zzz"⟩] ["a.py"] [] [] false =
      ([("a.py", [])], [], [], []) ∧
    infer_targets_from_fence_info "zzz" ["a.py"] = [] ∧
    find_by_basename ["a.py"] (pyPathName "zzz") = [] :=
  ⟨rfl, rfl, rfl⟩

/-- C6: ambiguous fence info `utils` over `a/utils.py` and `b/utils.py` routes
the block to `unassigned`, leaves both code lists empty, and emits a warning
naming both candidates. -/
theorem ambiguous_fence_info_routing :
    map_headings_to_files [⟨"fence", "X", "utils"⟩] ["a/utils.py", "b/utils.py"] [] [] false =
      ([("a/utils.py", []), ("b/utils.py", [])], ["X"],
        ["⚠️ Ambiguous fence info 'utils' matches ['a/utils.py', 'b/utils.py']"], []) ∧
    strContains "⚠️ Ambiguous fence info 'utils' matches ['a/utils.py', 'b/utils.py']"
      "a/utils.py" = true ∧
    strContains "⚠️ Ambiguous fence info 'utils' matches ['a/utils.py', 'b/utils.py']"
      "b/utils.py" = true :=
  ⟨rfl, rfl, rfl⟩

/-- C4 counterexample: two successive headings (`a.py`, then `./a.py`) both
resolve to the file `a.py`; the returned heading map holds the second heading,
not the first, because `_register_mapping` overwrites unconditionally. -/
theorem heading_map_last_wins :
    map_headings_to_files
      [⟨"heading_open", "", ""⟩, ⟨"inline", "a.py", ""⟩,
       ⟨"heading_open", "", ""⟩, ⟨"inline", "./a.py", ""⟩]
      ["a.py"] [] [] false =
      ([("a.py", [])], [], [], [("a.py", "./a.py")]) ∧
    ("./a.py" : String) ≠ "a.py" :=
  ⟨rfl, by decide⟩

/-- C4 (amended): every successful heading match overwrites
`heading_map[target]` with the new heading text, so the map holds the heading
of the last match for each file. -/
theorem heading_match_overwrites_heading_map (files : List String)
    (st : EngineState) (ht hc fp : String)
    (hres : (map_heading_to_file files st ht hc).1 = some fp) :
    dictGet (map_heading_to_file files st ht hc).2.2.f2h fp = some ht := by
  cases hex : find_by_exact_path files hc with
  | some em =>
    simp only [map_heading_to_file, hex, Option.some.injEq] at hres ⊢
    rw [← hres]
    exact dictGet_dictSet st.f2h em ht
  | none =>
    cases hpm : find_by_partial_path files hc with
    | cons t ts =>
      cases ts with
      | nil =>
        simp only [map_heading_to_file, hex, hpm, Option.some.injEq] at hres ⊢
        rw [← hres]
        exact dictGet_dictSet st.f2h t ht
      | cons t2 ts2 =>
        simp only [map_heading_to_file, hex, hpm] at hres
        exact Option.noConfusion hres
    | nil =>
      cases hbm : find_by_basename files (pyPathName hc) with
      | cons b bs =>
        cases bs with
        | nil =>
          simp only [map_heading_to_file, hex, hpm, hbm, Option.some.injEq] at hres ⊢
          rw [← hres]
          exact dictGet_dictSet st.f2h b ht
        | cons b2 bs2 =>
          cases hfz : find_by_fuzzy_match files hc 1 with
          | cons f fs =>
            simp only [map_heading_to_file, hex, hpm, hbm, hfz, Option.some.injEq] at hres ⊢
            rw [← hres]
            exact dictGet_dictSet st.f2h f ht
          | nil =>
            simp only [map_heading_to_file, hex, hpm, hbm, hfz] at hres
            exact Option.noConfusion hres
      | nil =>
        cases hfz : find_by_fuzzy_match files hc 1 with
        | cons f fs =>
          simp only [map_heading_to_file, hex, hpm, hbm, hfz, Option.some.injEq] at hres ⊢
          rw [← hres]
          exact dictGet_dictSet st.f2h f ht
        | nil =>
          simp only [map_heading_to_file, hex, hpm, hbm, hfz] at hres
          exact Option.noConfusion hres

/-- Witness for the amended C4 theorem: one exact heading match. -/
theorem heading_match_overwrites_heading_map_witness :
    (map_heading_to_file ["a.py"] ⟨[("a.py", [])], [], [], [], []⟩ "x" "a.py").1 =
      some "a.py" ∧
    dictGet (map_heading_to_file ["a.py"]
      ⟨[("a.py", [])], [], [], [], []⟩ "x" "a.py").2.2.f2h "a.py" = some "x" :=
  ⟨rfl, heading_match_overwrites_heading_map ["a.py"]
    ⟨[("a.py", [])], [], [], [], []⟩ "x" "a.py" "a.py" rfl⟩

/-- C2 counterexample: the primary assignment path rewrites an existing hint
even when it is similar (ratio 1) to the target and equally specific: the
stored content differs from the original. -/
theorem primary_path_rewrites_equal_hint :
    are_hints_similar "src/utils.py" "src/utils.py" = true ∧
    get_path_specificity "src/utils.py" ≥ get_path_specificity "src/utils.py" ∧
    (extract_hint_and_body "#src/utils.py\nbody").1 = "src/utils.py" ∧
    assign_to_file ⟨[("src/utils.py", [])], [], [], [], []⟩ false
        "src/utils.py" "#src/utils.py\nbody" "current" =
      (true,
        ⟨[("src/utils.py", ["# src/utils.py\nbody"])],
         ["ℹ️ Replaced hint 'src/utils.py' with 'src/utils.py'",
          "ℹ️ Assigned fence block (current) -> src/utils.py (was: 'src/utils.py')"],
         [], [], []⟩) ∧
    ("# src/utils.py\nbody" : String) ≠ "#src/utils.py\nbody" :=
  ⟨rfl, Nat.le_refl _, rfl, rfl, by decide⟩

lemma dictGet_cons {β : Type} (k1 : String) (v1 : β) (rest : List (String × β))
    (k0 : String) :
    dictGet ((k1, v1) :: rest) k0 = if k1 = k0 then some v1 else dictGet rest k0 := by
  by_cases h : k1 = k0 <;> simp [dictGet, List.find?_cons, h]

lemma cmAppend_keys (cm : CM) (k b : String) :
    (cmAppend cm k b).map Prod.fst = cm.map Prod.fst := by
  induction cm with
  | nil => rfl
  | cons kv rest ih =>
    obtain ⟨k0, v0⟩ := kv
    by_cases h : k0 = k
    · simp [cmAppend, h]
    · simp [cmAppend, h, ih]

lemma cmTotal_cmAppend (cm : CM) (k b : String) :
    cmTotal (cmAppend cm k b) ≤ cmTotal cm + 1 := by
  induction cm with
  | nil => simp [cmAppend, cmTotal]
  | cons kv rest ih =>
    obtain ⟨k0, v0⟩ := kv
    by_cases h : k0 = k
    · simp only [cmAppend, if_pos h, cmTotal, List.map_cons, List.sum_cons,
        List.length_append, List.length_singleton]
      simp only [cmTotal] at ih
      omega
    · simp only [cmAppend, if_neg h, cmTotal, List.map_cons, List.sum_cons]
      simp only [cmTotal] at ih
      omega

lemma cmAppend_lookup_prefix (cm : CM) (k b k0 : String) :
    ((dictGet cm k0).getD []) <+: ((dictGet (cmAppend cm k b) k0).getD []) := by
  induction cm with
  | nil => simp [cmAppend]
  | cons kv rest ih =>
    obtain ⟨k1, v1⟩ := kv
    by_cases hk : k1 = k
    · rw [show cmAppend ((k1, v1) :: rest) k b = (k1, v1 ++ [b]) :: rest by
        simp [cmAppend, hk]]
      by_cases h0 : k1 = k0
      · rw [dictGet_cons, dictGet_cons, if_pos h0, if_pos h0]
        simp
      · rw [dictGet_cons, dictGet_cons, if_neg h0, if_neg h0]
    · rw [show cmAppend ((k1, v1) :: rest) k b = (k1, v1) :: cmAppend rest k b by
        simp [cmAppend, hk]]
      by_cases h0 : k1 = k0
      · rw [dictGet_cons, dictGet_cons, if_pos h0, if_pos h0]
      · rw [dictGet_cons, dictGet_cons, if_neg h0, if_neg h0]
        exact ih

lemma rescueCommit_cm (cm : CM) (target body : String) (w : List String)
    (msg : String) :
    ((rescueCommit cm target body w msg).1 = true ∧
      (rescueCommit cm target body w msg).2.1 = cmAppend cm target body) ∨
    ((rescueCommit cm target body w msg).1 = false ∧
      (rescueCommit cm target body w msg).2.1 = cm) := by
  unfold rescueCommit
  by_cases hb : body = ""
  · simp [hb]
  · rw [if_neg hb]
    cases hget : dictGet cm target with
    | none => simp
    | some blocks =>
      cases blocks with
      | nil => simp
      | cons b0 bs =>
        cases hsp : pySplitlines ((b0 :: bs).getLast?.getD "") with
        | nil => simp [hsp]
        | cons l0 r => simp [hsp]

lemma rescueCommitRaise_cm (cm : CM) (target body : String) (w : List String)
    (msg : String) :
    ((rescueCommitRaise cm target body w msg).1 = RStat.assigned ∧
      (rescueCommitRaise cm target body w msg).2.1 = cmAppend cm target body) ∨
    ((rescueCommitRaise cm target body w msg).1 ≠ RStat.assigned ∧
      (rescueCommitRaise cm target body w msg).2.1 = cm) := by
  unfold rescueCommitRaise
  by_cases hb : body = ""
  · simp [hb]
  · rw [if_neg hb]
    cases hget : dictGet cm target with
    | none => simp
    | some blocks =>
      cases blocks with
      | nil => simp
      | cons b0 bs =>
        cases hsp : pySplitlines ((b0 :: bs).getLast?.getD "") with
        | nil => simp [hsp]
        | cons l0 r => simp [hsp]

lemma process_hint_match_cm (code hint : String) (ln : Option Nat)
    (target : String) (cm : CM) (strip : Bool) (warns : List String) :
    ((process_hint_match code hint ln target cm strip warns).1 = true ∧
      ∃ b, (process_hint_match code hint ln target cm strip warns).2.1 =
        cmAppend cm target b) ∨
    ((process_hint_match code hint ln target cm strip warns).1 = false ∧
      (process_hint_match code hint ln target cm strip warns).2.1 = cm) := by
  obtain ⟨body, w1, heq⟩ : ∃ body w1,
      process_hint_match code hint ln target cm strip warns =
        rescueCommit cm target body w1
          ("ℹ️ Rescued block → assigned to " ++ target ++ " (from hint '" ++ hint ++ "')") :=
    ⟨_, _, rfl⟩
  rw [heq]
  rcases rescueCommit_cm cm target body w1
      ("ℹ️ Rescued block → assigned to " ++ target ++ " (from hint '" ++ hint ++ "')") with
    ⟨h1, h2⟩ | ⟨h1, h2⟩
  · exact Or.inl ⟨h1, body, h2⟩
  · exact Or.inr ⟨h1, h2⟩

lemma try_basename_match_cm (code hint : String) (ln : Option Nat) (cm : CM)
    (strip : Bool) (warns : List String) :
    ((try_basename_match code hint ln cm strip warns).1 = RStat.assigned ∧
      ∃ t b, (try_basename_match code hint ln cm strip warns).2.1 =
        cmAppend cm t b) ∨
    ((try_basename_match code hint ln cm strip warns).1 ≠ RStat.assigned ∧
      (try_basename_match code hint ln cm strip warns).2.1 = cm) := by
  unfold try_basename_match
  cases hbm : (cm.map Prod.fst).filter (fun f => pyPathName f = pyPathName hint) with
  | nil => simp
  | cons t ts =>
    cases ts with
    | cons t2 ts2 => simp
    | nil =>
      simp only []
      by_cases hb :
        (if strip && ln.isSome then
          pyRStrip (joinNL (dropIdx (pySplitlines code) (ln.getD 0)))
        else code) = ""
      · rw [if_pos hb]
        simp
      · rw [if_neg hb]
        rcases rescueCommitRaise_cm cm t
            (if strip && ln.isSome then
              pyRStrip (joinNL (dropIdx (pySplitlines code) (ln.getD 0)))
            else code) warns
            ("ℹ️ Auto-assigned block to " ++ t ++ " (basename match for hint '" ++ hint ++ "')") with
          ⟨h1, h2⟩ | ⟨h1, h2⟩
        · exact Or.inl ⟨h1, t, _, h2⟩
        · exact Or.inr ⟨h1, h2⟩

lemma thmGo_cm (cm : CM) (first body : String) (warns : List String)
    (items : List (String × String)) :
    ((thmGo cm first body warns items).1 = RStat.assigned ∧
      ∃ t b, (thmGo cm first body warns items).2.1 = cmAppend cm t b) ∨
    ((thmGo cm first body warns items).1 ≠ RStat.assigned ∧
      (thmGo cm first body warns items).2.1 = cm) := by
  induction items with
  | nil => simp [thmGo]
  | cons it rest ih =>
    obtain ⟨target, heading⟩ := it
    unfold thmGo
    by_cases h1 : ((cm.map Prod.fst).contains target) = true
    · simp only [h1, Bool.not_true, Bool.false_eq_true, if_false]
      by_cases h2 : (strStartsWith first heading ||
          strContains first (String.mk
            (((pyStrip heading).data.dropWhile (fun c => c = '.' || c = '/')).map
              (fun c => if c = '\\' then '/' else c)))) = true
      · rw [if_pos h2]
        by_cases h3 : body ≠ ""
        · rw [if_pos h3]
          rcases rescueCommitRaise_cm cm target body warns
              ("ℹ️ Rescued block → assigned to " ++ target ++ " (from heading '" ++ heading ++ "')") with
            ⟨ha, hb⟩ | ⟨ha, hb⟩
          · exact Or.inl ⟨ha, target, _, hb⟩
          · exact Or.inr ⟨ha, hb⟩
        · rw [if_neg h3]
          exact ih
      · rw [if_neg h2]
        exact ih
    · simp only [Bool.not_eq_true] at h1
      simp only [h1, Bool.not_false, if_true]
      exact ih

lemma try_heading_match_cm (code : String) (hm : List (String × String))
    (cm : CM) (strip : Bool) (warns : List String) :
    ((try_heading_match code hm cm strip warns).1 = RStat.assigned ∧
      ∃ t b, (try_heading_match code hm cm strip warns).2.1 = cmAppend cm t b) ∨
    ((try_heading_match code hm cm strip warns).1 ≠ RStat.assigned ∧
      (try_heading_match code hm cm strip warns).2.1 = cm) := by
  unfold try_heading_match
  cases hsp : pySplitlines code with
  | nil => simp
  | cons l0 rest => exact thmGo_cm cm (pyStrip l0) _ warns hm

lemma StepOk_same (st : RescueSt) (code : String) (w : List String) :
    StepOk st { st with warns := w } code :=
  ⟨Or.inl rfl, rfl, fun _ => List.prefix_refl _, by
    show cmTotal st.cm + st.still.length ≤ cmTotal st.cm + st.still.length + 1
    omega⟩

lemma StepOk_keep (st : RescueSt) (code : String) :
    StepOk st (rescueKeep st code) code :=
  ⟨Or.inr rfl, rfl, fun _ => List.prefix_refl _, by
    show cmTotal st.cm + (st.still ++ [code]).length ≤ cmTotal st.cm + st.still.length + 1
    simp only [List.length_append, List.length_singleton]
    omega⟩

lemma StepOk_handler (st : RescueSt) (code msg : String) :
    StepOk st (rescueHandler st code msg) code :=
  ⟨Or.inr rfl, rfl, fun _ => List.prefix_refl _, by
    show cmTotal st.cm + (st.still ++ [code]).length ≤ cmTotal st.cm + st.still.length + 1
    simp only [List.length_append, List.length_singleton]
    omega⟩

lemma StepOk_append (st : RescueSt) (code t b : String) (w : List String) :
    StepOk st ⟨cmAppend st.cm t b, st.still, w⟩ code :=
  ⟨Or.inl rfl, cmAppend_keys st.cm t b,
   fun k => cmAppend_lookup_prefix st.cm t b k, by
    have := cmTotal_cmAppend st.cm t b
    simp only []
    omega⟩

lemma StepOk_congr (st st' st2 : RescueSt) (code : String)
    (h1 : st'.cm = st.cm) (h2 : st'.still = st.still)
    (h : StepOk st' st2 code) : StepOk st st2 code := by
  unfold StepOk at h ⊢
  rw [h1, h2] at h
  exact h

lemma stepFive_ok (fb code : String) (st : RescueSt) :
    StepOk st (rescueStepFive fb code st) code := by
  unfold rescueStepFive
  by_cases hf : fb = "high"
  · rw [if_pos hf]
    cases hfil : (st.cm.map Prod.fst).filter (fun f => ((dictGet st.cm f).getD []).isEmpty) with
    | nil => exact StepOk_keep st code
    | cons t ts => exact StepOk_append st code t code _
  · rw [if_neg hf]
    exact StepOk_keep st code

lemma stepFour_ok (hm : List (String × String)) (strip : Bool)
    (fb code : String) (st : RescueSt) :
    StepOk st (rescueStepFour hm strip fb code st) code := by
  unfold rescueStepFour
  by_cases hf : (fb = "medium" || fb = "high") = true
  · rw [if_pos hf]
    have hcase := try_heading_match_cm code hm st.cm strip st.warns
    rcases hthm : try_heading_match code hm st.cm strip st.warns with ⟨rs, cm2, w2⟩
    rw [hthm] at hcase
    simp only [] at hcase
    cases rs with
    | assigned =>
      show StepOk st ⟨cm2, st.still, w2⟩ code
      rcases hcase with ⟨_, t, b, hcm⟩ | ⟨ha, _⟩
      · rw [show cm2 = cmAppend st.cm t b from hcm]
        exact StepOk_append st code t b w2
      · exact absurd rfl ha
    | failed =>
      show StepOk st (rescueStepFive fb code ⟨cm2, st.still, w2⟩) code
      rcases hcase with ⟨ha, _⟩ | ⟨_, hcm⟩
      · exact absurd ha (by simp)
      · exact StepOk_congr st ⟨cm2, st.still, w2⟩ _ code hcm rfl
          (stepFive_ok fb code ⟨cm2, st.still, w2⟩)
    | raised msg =>
      show StepOk st (rescueHandler ⟨cm2, st.still, w2⟩ code msg) code
      rcases hcase with ⟨ha, _⟩ | ⟨_, hcm⟩
      · exact absurd ha (by simp)
      · rw [show cm2 = st.cm from hcm]
        exact StepOk_handler { st with warns := w2 } code msg
  · rw [if_neg hf]
    exact stepFive_ok fb code st

lemma rescueCommitRaise_eq (cm : CM) (target body : String) (w : List String)
    (msg : String) (rs : RStat) (cm2 : CM) (w2 : List String)
    (heq : rescueCommitRaise cm target body w msg = (rs, cm2, w2)) :
    (rs = RStat.assigned ∧ cm2 = cmAppend cm target body) ∨
    (rs ≠ RStat.assigned ∧ cm2 = cm) := by
  rcases rescueCommitRaise_cm cm target body w msg with ⟨h1, h2⟩ | ⟨h1, h2⟩ <;>
    rw [heq] at h1 h2 <;> simp only [] at h1 h2
  · exact Or.inl ⟨h1, h2⟩
  · exact Or.inr ⟨h1, h2⟩

lemma process_hint_match_eq (code hint : String) (ln : Option Nat)
    (target : String) (cm : CM) (strip : Bool) (warns : List String)
    (ok : Bool) (cm2 : CM) (w2 : List String)
    (heq : process_hint_match code hint ln target cm strip warns = (ok, cm2, w2)) :
    (ok = true ∧ ∃ b, cm2 = cmAppend cm target b) ∨ (ok = false ∧ cm2 = cm) := by
  rcases process_hint_match_cm code hint ln target cm strip warns with
    ⟨h1, b, h2⟩ | ⟨h1, h2⟩ <;> rw [heq] at h1 h2 <;> simp only [] at h1 h2
  · exact Or.inl ⟨h1, b, h2⟩
  · exact Or.inr ⟨h1, h2⟩

lemma try_basename_match_eq (code hint : String) (ln : Option Nat) (cm : CM)
    (strip : Bool) (warns : List String) (rs : RStat) (cm2 : CM) (w2 : List String)
    (heq : try_basename_match code hint ln cm strip warns = (rs, cm2, w2)) :
    (rs = RStat.assigned ∧ ∃ t b, cm2 = cmAppend cm t b) ∨
    (rs ≠ RStat.assigned ∧ cm2 = cm) := by
  rcases try_basename_match_cm code hint ln cm strip warns with
    ⟨h1, t, b, h2⟩ | ⟨h1, h2⟩ <;> rw [heq] at h1 h2 <;> simp only [] at h1 h2
  · exact Or.inl ⟨h1, t, b, h2⟩
  · exact Or.inr ⟨h1, h2⟩

lemma stepThree_ok (hm : List (String × String)) (strip inter : Bool)
    (fb : String) (res : String → List String → Option String)
    (code : String) (st : RescueSt) :
    StepOk st (rescueStepThree hm strip inter fb res code st) code := by
  unfold rescueStepThree
  split
  · split
    · exact stepFour_ok hm strip fb code st
    · rename_i l0 rest heqsp
      generalize (if strip = true then pyRStrip (joinNL rest) else code) = body
      split
      · -- single candidate
        split
        · -- body nonempty
          split
          · -- assigned
            rename_i cm2 w2 heq
            rcases rescueCommitRaise_eq _ _ _ _ _ _ _ _ heq with ⟨_, hcm⟩ | ⟨hne, _⟩
            · show StepOk st ⟨cm2, st.still, w2⟩ code
              rw [hcm]
              exact StepOk_append st code _ _ w2
            · exact absurd rfl hne
          · -- raised
            rename_i msg cm2 w2 heq
            rcases rescueCommitRaise_eq _ _ _ _ _ _ _ _ heq with ⟨ha, _⟩ | ⟨_, hcm⟩
            · exact absurd ha (by simp)
            · show StepOk st (rescueHandler ⟨cm2, st.still, w2⟩ code msg) code
              rw [hcm]
              exact StepOk_handler { st with warns := w2 } code msg
          · exact stepFour_ok hm strip fb code st
        · exact stepFour_ok hm strip fb code st
      · -- multiple candidates
        split
        · split
          · split
            · split
              · split
                · exact StepOk_handler st code _
                · exact StepOk_append st code _ _ _
              · exact stepFour_ok hm strip fb code st
            · exact stepFour_ok hm strip fb code st
          · exact stepFour_ok hm strip fb code st
        · exact stepFour_ok hm strip fb code st
      · exact stepFour_ok hm strip fb code st
  · exact stepFour_ok hm strip fb code st

lemma rescueStep_ok (hm : List (String × String)) (strip inter : Bool)
    (fb : String) (res : String → List String → Option String)
    (st : RescueSt) (code : String) :
    StepOk st (rescueStep hm strip inter fb res st code) code := by
  unfold rescueStep
  split
  · exact StepOk_same st code _
  · split
    · -- hint found
      split
      · -- single candidate: process_hint_match
        split
        · -- assigned
          rename_i cm2 w2 heq
          rcases process_hint_match_eq _ _ _ _ _ _ _ _ _ _ heq with ⟨_, b, hcm⟩ | ⟨hne, _⟩
          · show StepOk st ⟨cm2, st.still, w2⟩ code
            rw [hcm]
            exact StepOk_append st code _ _ w2
          · exact Bool.noConfusion hne
        · -- not assigned: fall to step 3
          rename_i cm2 w2 heq
          rcases process_hint_match_eq _ _ _ _ _ _ _ _ _ _ heq with ⟨ha, _⟩ | ⟨_, hcm⟩
          · exact absurd ha (by simp)
          · exact StepOk_congr st ⟨cm2, st.still, w2⟩ _ code hcm rfl
              (stepThree_ok hm strip inter fb res code ⟨cm2, st.still, w2⟩)
      · -- several candidates
        split
        · -- interactive
          split
          · -- resolver chose
            split
            · -- nonempty selection
              split
              · -- process_hint_match assigned
                rename_i cm2 w2 heq
                rcases process_hint_match_eq _ _ _ _ _ _ _ _ _ _ heq with
                  ⟨_, b, hcm⟩ | ⟨hne, _⟩
                · show StepOk st ⟨cm2, st.still, w2⟩ code
                  rw [hcm]
                  exact StepOk_append st code _ _ w2
                · exact Bool.noConfusion hne
              · rename_i cm2 w2 heq
                rcases process_hint_match_eq _ _ _ _ _ _ _ _ _ _ heq with
                  ⟨ha, _⟩ | ⟨_, hcm⟩
                · exact absurd ha (by simp)
                · exact StepOk_congr st ⟨cm2, st.still, w2⟩ _ code hcm rfl
                    (stepThree_ok hm strip inter fb res code ⟨cm2, st.still, w2⟩)
            · exact stepThree_ok hm strip inter fb res code st
          · exact stepThree_ok hm strip inter fb res code st
        · -- non-interactive ambiguity: kept unassigned
          exact ⟨Or.inr rfl, rfl, fun _ => List.prefix_refl _, by
            show cmTotal st.cm + (st.still ++ [code]).length ≤
              cmTotal st.cm + st.still.length + 1
            simp only [List.length_append, List.length_singleton]
            omega⟩
      · -- zero candidates
        split
        · -- high: basename attempt
          split
          · -- assigned
            rename_i cm2 w3 heq
            rcases try_basename_match_eq _ _ _ _ _ _ _ _ _ heq with
              ⟨_, t, b, hcm⟩ | ⟨hne, _⟩
            · show StepOk st ⟨cm2, st.still, w3⟩ code
              rw [hcm]
              exact StepOk_append st code _ _ w3
            · exact absurd rfl hne
          · -- failed: keep
            rename_i cm2 w3 heq
            rcases try_basename_match_eq _ _ _ _ _ _ _ _ _ heq with
              ⟨ha, _⟩ | ⟨_, hcm⟩
            · exact absurd ha (by simp)
            · show StepOk st (rescueKeep ⟨cm2, st.still, w3⟩ code) code
              rw [hcm]
              exact StepOk_keep { st with warns := w3 } code
          · -- raised: handler
            rename_i msg cm2 w3 heq
            rcases try_basename_match_eq _ _ _ _ _ _ _ _ _ heq with
              ⟨ha, _⟩ | ⟨_, hcm⟩
            · exact absurd ha (by simp)
            · show StepOk st (rescueHandler ⟨cm2, st.still, w3⟩ code msg) code
              rw [hcm]
              exact StepOk_handler { st with warns := w3 } code msg
        · -- keep unassigned
          exact StepOk_keep { st with warns := _ } code
    · exact stepThree_ok hm strip inter fb res code st

lemma rescueFold_ok (hm : List (String × String)) (strip inter : Bool)
    (fb : String) (res : String → List String → Option String) :
    ∀ (codes : List String) (st : RescueSt),
      FoldOk st (codes.foldl (rescueStep hm strip inter fb res) st) codes := by
  intro codes
  induction codes with
  | nil =>
    intro st
    exact ⟨Nat.le_refl _, fun s hs => Or.inl hs, rfl,
      fun _ => List.prefix_refl _, Nat.le_refl _⟩
  | cons code rest ih =>
    intro st
    simp only [List.foldl_cons]
    obtain ⟨h1, h3, h4, h5⟩ := rescueStep_ok hm strip inter fb res st code
    obtain ⟨g1, g2, g3, g4, g5⟩ := ih (rescueStep hm strip inter fb res st code)
    have hlen : (rescueStep hm strip inter fb res st code).still.length ≤ st.still.length + 1 := by
      rcases h1 with h | h <;> rw [h] <;> simp
    refine ⟨?_, ?_, ?_, ?_, ?_⟩
    · calc (List.foldl (rescueStep hm strip inter fb res)
            (rescueStep hm strip inter fb res st code) rest).still.length
          ≤ (rescueStep hm strip inter fb res st code).still.length + rest.length := g1
        _ ≤ st.still.length + 1 + rest.length := by omega
        _ = st.still.length + (code :: rest).length := by simp; omega
    · intro s hs
      rcases g2 s hs with hs1 | hs1
      · rcases h1 with h | h
        · rw [h] at hs1
          exact Or.inl hs1
        · rw [h] at hs1
          rcases List.mem_append.mp hs1 with h' | h'
          · exact Or.inl h'
          · simp at h'
            exact Or.inr (by rw [h']; exact List.mem_cons_self _ _)
      · exact Or.inr (List.mem_cons_of_mem _ hs1)
    · rw [g3, h3]
    · intro k
      exact (h4 k).trans (g4 k)
    · have hc : cmTotal (rescueStep hm strip inter fb res st code).cm +
          (rescueStep hm strip inter fb res st code).still.length ≤
          cmTotal st.cm + st.still.length + 1 := h5
      calc cmTotal (List.foldl (rescueStep hm strip inter fb res)
              (rescueStep hm strip inter fb res st code) rest).cm +
            (List.foldl (rescueStep hm strip inter fb res)
              (rescueStep hm strip inter fb res st code) rest).still.length
          ≤ cmTotal (rescueStep hm strip inter fb res st code).cm +
            (rescueStep hm strip inter fb res st code).still.length + rest.length := g5
        _ ≤ cmTotal st.cm + st.still.length + 1 + rest.length := by omega
        _ = cmTotal st.cm + st.still.length + (code :: rest).length := by simp; omega

/-- C8: rescue monotonicity.  The still-unassigned list is never longer than
the input and draws only from it; the code map only grows: its key set is
unchanged, every original list is a prefix of the final one, and the total
number of stored blocks grows by at most one per block removed from the
unassigned list — so a rescued block lands in exactly one target list, never
two. -/
theorem try_rescue_unassigned_monotone (unassigned tree : List String)
    (cm : CM) (hm : List (String × String)) (strip inter : Bool)
    (fb : String) (res : String → List String → Option String) :
    (try_rescue_unassigned unassigned tree cm hm strip inter fb res).1.length ≤
      unassigned.length ∧
    (∀ s ∈ (try_rescue_unassigned unassigned tree cm hm strip inter fb res).1,
      s ∈ unassigned) ∧
    (try_rescue_unassigned unassigned tree cm hm strip inter fb res).2.2.map Prod.fst =
      cm.map Prod.fst ∧
    (∀ k, ((dictGet cm k).getD []) <+:
      ((dictGet (try_rescue_unassigned unassigned tree cm hm strip inter fb res).2.2 k).getD [])) ∧
    cmTotal (try_rescue_unassigned unassigned tree cm hm strip inter fb res).2.2 +
        (try_rescue_unassigned unassigned tree cm hm strip inter fb res).1.length ≤
      cmTotal cm + unassigned.length := by
  unfold try_rescue_unassigned
  by_cases hu : unassigned.isEmpty
  · rw [if_pos hu]
    rw [List.isEmpty_iff] at hu
    subst hu
    exact ⟨Nat.le_refl _, by simp, rfl, fun _ => List.prefix_refl _, by simp⟩
  · rw [if_neg hu]
    by_cases hc : cm.isEmpty
    · rw [if_pos hc]
      exact ⟨Nat.le_refl _, fun s hs => hs, rfl, fun _ => List.prefix_refl _, Nat.le_refl _⟩
    · rw [if_neg hc]
      obtain ⟨g1, g2, g3, g4, g5⟩ :=
        rescueFold_ok hm strip inter fb res unassigned ⟨cm, [], []⟩
      refine ⟨by simpa using g1, ?_, g3, g4, by simpa using g5⟩
      intro s hs
      rcases g2 s hs with h | h
      · cases h
      · exact h

/-! Key-set preservation of the primary engine (C10). -/
lemma dictSet_keys {β : Type} (m : List (String × β)) (k : String) (v : β) :
    (dictSet m k v).map Prod.fst =
      if (m.map Prod.fst).contains k then m.map Prod.fst else m.map Prod.fst ++ [k] := by
  induction m with
  | nil => simp [dictSet]
  | cons kv rest ih =>
    obtain ⟨k0, v0⟩ := kv
    by_cases h : k0 = k
    · simp [dictSet, h]
    · have hne : (k == k0) = false := by
        simp only [beq_eq_false_iff_ne, ne_eq]
        exact fun e => h e.symm
      simp only [dictSet, if_neg h, List.map_cons, List.contains_cons, hne,
        Bool.false_or, ih]
      by_cases hc : (rest.map Prod.fst).contains k = true
      · rw [if_pos hc, if_pos hc]
      · rw [if_neg hc, if_neg hc]
        exact (List.cons_append _ _ _).symm

lemma dedupKeepFirst_cons (s : List String) (x : String) (t : List String) :
    dedupKeepFirst s (x :: t) =
      if s.contains x then dedupKeepFirst s t
      else x :: dedupKeepFirst (x :: s) t := rfl

lemma dedupKeepFirst_congr (s1 s2 : List String)
    (h : ∀ x, s1.contains x = s2.contains x) :
    ∀ l, dedupKeepFirst s1 l = dedupKeepFirst s2 l := by
  intro l
  induction l generalizing s1 s2 with
  | nil => rfl
  | cons x t ih =>
    rw [dedupKeepFirst_cons, dedupKeepFirst_cons, h x]
    by_cases hc : s2.contains x = true
    · rw [if_pos hc, if_pos hc]
      exact ih s1 s2 h
    · rw [if_neg hc, if_neg hc]
      refine congrArg (x :: ·) (ih (x :: s1) (x :: s2) ?_)
      intro y
      simp only [List.contains_cons, h y]

lemma initCodeMap_fold_keys (p : String → Bool) :
    ∀ (l : List String) (m : CM),
      ((l.foldl (fun m2 fp => if p fp then dictSet m2 fp [] else m2) m).map Prod.fst) =
        m.map Prod.fst ++ dedupKeepFirst (m.map Prod.fst) (l.filter p) := by
  intro l
  induction l with
  | nil =>
    intro m
    simp [dedupKeepFirst]
  | cons fp t ih =>
    intro m
    simp only [List.foldl_cons, List.filter_cons]
    by_cases hp : p fp = true
    · rw [if_pos hp, if_pos hp, ih (dictSet m fp []), dictSet_keys,
        dedupKeepFirst_cons]
      by_cases hc : (m.map Prod.fst).contains fp = true
      · rw [if_pos hc, if_pos hc]
      · rw [if_neg hc, if_neg hc,
          dedupKeepFirst_congr (m.map Prod.fst ++ [fp]) (fp :: m.map Prod.fst)
            (by intro y; rw [Bool.eq_iff_iff]; simp [List.mem_append, or_comm])
            (t.filter p)]
        simp
    · rw [if_neg hp, if_neg hp]
      exact ih m

lemma mhtf_code_map (files : List String) (st : EngineState) (ht hc : String) :
    (map_heading_to_file files st ht hc).2.2.code_map = st.code_map := by
  unfold map_heading_to_file
  repeat' split
  all_goals rfl

lemma assign_keys (st : EngineState) (strip : Bool) (t c mt : String) :
    (assign_to_file st strip t c mt).2.code_map.map Prod.fst =
      st.code_map.map Prod.fst := by
  unfold assign_to_file
  split
  · rfl
  · exact cmAppend_keys st.code_map t _

lemma pwfi_keys (files : List String) (st : EngineState) (strip : Bool)
    (fi fc : String) :
    (process_with_fence_info files st strip fi fc).2.code_map.map Prod.fst =
      st.code_map.map Prod.fst := by
  unfold process_with_fence_info
  dsimp only
  repeat' split
  all_goals first
    | exact assign_keys st strip _ fc _
    | rfl

lemma pwh_keys (files : List String) (st : EngineState) (strip : Bool)
    (hint fc : String) :
    (process_with_hint files st strip hint fc).2.code_map.map Prod.fst =
      st.code_map.map Prod.fst := by
  unfold process_with_hint
  repeat' split
  all_goals first
    | exact assign_keys st strip _ fc _
    | rfl

lemma pfb_keys (files : List String) (st : EngineState) (strip : Bool)
    (fi fc : String) (cf : Option String) :
    (process_fence_block files st strip fi fc cf).2.code_map.map Prod.fst =
      st.code_map.map Prod.fst := by
  unfold process_fence_block
  dsimp only
  repeat' split
  all_goals first
    | exact assign_keys st strip _ fc _
    | exact pwfi_keys files st strip fi fc
    | exact pwh_keys files st strip _ fc
    | rfl

lemma paraStep_keys (st : EngineState) (cf pt : String) :
    (paraStep st cf pt).code_map.map Prod.fst = st.code_map.map Prod.fst := by
  unfold paraStep
  repeat' split
  all_goals first
    | exact cmAppend_keys st.code_map cf pt
    | rfl

lemma tokLoop_keys (files : List String) (strip : Bool) :
    ∀ (fuel : Nat) (toks : List Tok) (ls : LoopSt),
      (tokLoop files strip fuel toks ls).st.code_map.map Prod.fst =
        ls.st.code_map.map Prod.fst := by
  intro fuel
  induction fuel with
  | zero => intro toks ls; rfl
  | succ n ih =>
    intro toks ls
    cases toks with
    | nil => rfl
    | cons tok rest =>
      conv_lhs => rw [tokLoop]
      by_cases h1 : tok.type = "heading_open"
      · rw [if_pos h1]
        by_cases h2 : pyLower (clean_markdown_formatting
            (normalize_path_string (headInline rest))) = "file structure"
        · rw [if_pos h2, ih]
        · rw [if_neg h2, ih]
          exact congrArg (List.map Prod.fst)
            (mhtf_code_map files ls.st (headInline rest)
              (clean_markdown_formatting (normalize_path_string (headInline rest))))
      · rw [if_neg h1]
        by_cases h2 : tok.type = "fence"
        · rw [if_pos h2]
          by_cases h3 : ls.skipNext = true
          · rw [if_pos h3, ih]
          · rw [if_neg h3, ih]
            exact pfb_keys files ls.st strip (pyStrip tok.info) (fenceContentOf tok)
              ls.current_file
        · rw [if_neg h2]
          by_cases h3 : (decide (tok.type = "paragraph_open") && paraActive ls) = true
          · rw [if_pos h3, ih]
            exact paraStep_keys ls.st (ls.current_file.getD "") (headInline rest)
          · rw [if_neg h3, ih]

/-- C10: the key set of `code_map` is fixed at initialization.  Keys are
exactly the first occurrences of tree entries whose basename classifies as a
file; the whole primary token loop preserves them, the rescue pass preserves
them, and `_assign_to_file` refuses a target outside the key set, leaving the
state untouched. -/
theorem code_map_keys_fixed :
    (∀ (tree fa da : List String),
      (initCodeMap tree fa da).map Prod.fst =
        dedupKeepFirst [] (tree.filter (fun fp => is_probably_file (pyPathName fp) fa da))) ∧
    (∀ (tokens : List Tok) (tree fa da : List String) (strip : Bool),
      ¬tokens.isEmpty = true → ¬tree.isEmpty = true →
      (map_headings_to_files tokens tree fa da strip).1.map Prod.fst =
        (initCodeMap tree fa da).map Prod.fst) ∧
    (∀ (unassigned tree2 : List String) (cm : CM) (hm : List (String × String))
        (strip inter : Bool) (fb : String)
        (res : String → List String → Option String),
      (try_rescue_unassigned unassigned tree2 cm hm strip inter fb res).2.2.map Prod.fst =
        cm.map Prod.fst) ∧
    (∀ (st : EngineState) (strip : Bool) (t c mt : String),
      ¬(st.code_map.map Prod.fst).contains t = true →
      assign_to_file st strip t c mt = (false, st)) := by
  refine ⟨?_, ?_, ?_, ?_⟩
  · intro tree fa da
    exact initCodeMap_fold_keys (fun fp => is_probably_file (pyPathName fp) fa da) tree []
  · intro tokens tree fa da strip htok htree
    unfold map_headings_to_files
    rw [if_neg (by simp [htok, htree])]
    exact tokLoop_keys ((initCodeMap tree fa da).map Prod.fst) strip
      tokens.length tokens ⟨⟨initCodeMap tree fa da, [], [], [], []⟩, none, none, false⟩
  · intro unassigned tree2 cm hm strip inter fb res
    unfold try_rescue_unassigned
    by_cases hu : unassigned.isEmpty
    · rw [if_pos hu]
    · rw [if_neg hu]
      by_cases hc : cm.isEmpty
      · rw [if_pos hc]
      · rw [if_neg hc]
        exact (rescueFold_ok hm strip inter fb res unassigned ⟨cm, [], []⟩).2.2.1
  · intro st strip t c mt h
    have hb : (st.code_map.map Prod.fst).contains t = false := by
      cases hcb : (st.code_map.map Prod.fst).contains t
      · rfl
      · exact absurd hcb h
    unfold assign_to_file
    rw [if_pos (by rw [hb]; rfl)]

/-- Witness for C10 at concrete inputs. -/
theorem code_map_keys_fixed_witness :
    (map_headings_to_files [⟨"fence", "X", ""⟩] ["a.py", "src"] [] [] false).1.map Prod.fst =
      (initCodeMap ["a.py", "src"] [] []).map Prod.fst ∧
    assign_to_file ⟨[("a.py", [])], [], [], [], []⟩ false "b.py" "X" "current" =
      (false, ⟨[("a.py", [])], [], [], [], []⟩) :=
  ⟨code_map_keys_fixed.2.1 [⟨"fence", "X", ""⟩] ["a.py", "src"] [] [] false
     (by decide) (by decide),
   code_map_keys_fixed.2.2.2 ⟨[("a.py", [])], [], [], [], []⟩ false "b.py" "X" "current"
     (by decide)⟩

/-- C2 (amended): the rescue path respects hint specificity: when the
existing hint is similar (ratio at least 0.8) to the target and at least as
specific, `process_hint_match` appends the block content unchanged. -/
theorem rescue_respects_hint_specificity (code hint : String) (lnum : Nat)
    (target : String) (cm : CM) (strip_hints : Bool) (warns : List String)
    (blocks : List String)
    (hsim : are_hints_similar hint target = true)
    (hspec : get_path_specificity hint ≥ get_path_specificity target)
    (hcode : code ≠ "")
    (hget : dictGet cm target = some blocks)
    (hlast : blocks = [] ∨ pySplitlines (blocks.getLast?.getD "") ≠ []) :
    (process_hint_match code hint (some lnum) target cm strip_hints warns).1 = true ∧
    (process_hint_match code hint (some lnum) target cm strip_hints warns).2.1 =
      cmAppend cm target code := by
  have hhint : ¬(hint = "") := by
    intro h
    rw [h] at hsim
    simp [are_hints_similar] at hsim
  unfold process_hint_match rescueCommit
  cases blocks with
  | nil => simp [hhint, hsim, hspec, hcode, hget]
  | cons b0 bs =>
    have hb : pySplitlines ((b0 :: bs).getLast?.getD "") ≠ [] := by
      rcases hlast with h | h
      · cases h
      · exact h
    cases hsp : pySplitlines ((b0 :: bs).getLast?.getD "") with
    | nil => exact absurd hsp hb
    | cons l0 rest =>
      simp [hhint, hsim, hspec, hcode, hget, hsp]

/-- Witness for the amended C2 theorem: the concrete block
`#src/utils.py` + body rescued onto `src/utils.py` keeps its content. -/
theorem rescue_respects_hint_specificity_witness :
    are_hints_similar "src/utils.py" "src/utils.py" = true ∧
    (process_hint_match "#src/utils.py\nbody" "src/utils.py" (some 0) "src/utils.py"
        [("src/utils.py", [])] false []).2.1 =
      cmAppend [("src/utils.py", [])] "src/utils.py" "#src/utils.py\nbody" :=
  ⟨rfl,
   (rescue_respects_hint_specificity "#src/utils.py\nbody" "src/utils.py" 0
     "src/utils.py" [("src/utils.py", [])] false [] []
     rfl (Nat.le_refl _) (by decide) rfl (Or.inl rfl)).2⟩

/-- C9: local recovery of the parsers.  A malformed tree line (one the line
cleaner rejects) contributes nothing and the remaining lines are processed
identically; empty tree input yields the empty list; and a token of an
unhandled type leaves the assignment loop state unchanged, processing
continuing with the next token. -/
theorem parser_and_token_loop_recover_locally :
    (∀ (fa da pre post : List String) (bad : String)
        (st : List String × List (String × Nat)),
      clean_tree_line bad = none →
      List.foldl (parseTreeLine fa da) st (pre ++ bad :: post) =
        List.foldl (parseTreeLine fa da) st (pre ++ post)) ∧
    (∀ fa da, parse_ascii_tree_block "" fa da = []) ∧
    (∀ (files : List String) (strip : Bool) (fuel : Nat) (tok : Tok)
        (rest : List Tok) (ls : LoopSt),
      tok.type ≠ "heading_open" → tok.type ≠ "fence" → tok.type ≠ "paragraph_open" →
      tokLoop files strip (fuel + 1) (tok :: rest) ls = tokLoop files strip fuel rest ls) := by
  refine ⟨?_, ?_, ?_⟩
  · intro fa da pre post bad st hbad
    rw [List.foldl_append, List.foldl_append]
    show List.foldl (parseTreeLine fa da)
        (parseTreeLine fa da (List.foldl (parseTreeLine fa da) st pre) bad) post = _
    have hskip : parseTreeLine fa da (List.foldl (parseTreeLine fa da) st pre) bad =
        List.foldl (parseTreeLine fa da) st pre := by
      unfold parseTreeLine
      rw [hbad]
    rw [hskip]
  · intro fa da
    rfl
  · intro files strip fuel tok rest ls h1 h2 h3
    conv_lhs => rw [tokLoop]
    simp [h1, h2, h3]

/-- Witness for C9: a comment line inside a tree block is skipped, and an
inline token is inert for the assignment loop. -/
theorem parser_recovery_witness :
    clean_tree_line "# note" = none ∧
    List.foldl (parseTreeLine [] []) ([], [("", 0)]) (["src"] ++ "# note" :: ["  a.py"]) =
      List.foldl (parseTreeLine [] []) ([], [("", 0)]) (["src"] ++ ["  a.py"]) ∧
    tokLoop ["a.py"] false 1 [⟨"inline", "x", ""⟩]
        ⟨⟨[("a.py", [])], [], [], [], []⟩, none, none, false⟩ =
      tokLoop ["a.py"] false 0 []
        ⟨⟨[("a.py", [])], [], [], [], []⟩, none, none, false⟩ :=
  ⟨rfl,
   parser_and_token_loop_recover_locally.1 [] [] ["src"] ["  a.py"] "# note" ([], [("", 0)]) rfl,
   parser_and_token_loop_recover_locally.2.2 ["a.py"] false 0 ⟨"inline", "x", ""⟩ []
     ⟨⟨[("a.py", [])], [], [], [], []⟩, none, none, false⟩
     (by decide) (by decide) (by decide)⟩

end FTF
